import Mathlib

/-!
Verification of the content-ai-agent core against its specification.

The Lean definitions below are a shallow embedding of the Python sources:

* `src/core/validation_error_handler.py` (retry engine, backoff, rate-limit
  classification, usage accumulation),
* `src/services/orchestrator.py` (two-pass merge, baseline selection),
* `src/services/llm_service.py` (completion-reason-aware text extraction,
  token-count totalling),
* `src/core/llm/providers/openai/factory.py` (strict-schema transform,
  token counting),
* `src/core/llm/providers/google/vertexai/factory.py` (token counting),
* `src/core/llm/providers/{google/vertexai,openai}/response_mapper.py`
  (provider-neutral response mapping),
* `src/schemas/enums/finish_reason.py`, `src/core/llm/{enums,models}.py`
  (enums and value types).

Python exceptions are modelled with `Except`; machine reals appearing in the
backoff computation are modelled with `ℚ` (the exact real semantics of the
source expressions); `datetime` values are modelled as naturals under their
order.  Where an operation of the source calls an external backend (tiktoken,
the Vertex AI client, the model SDK), the backend outcome is passed in as an
explicit environment value so that the control flow of the source around it
is embedded exactly.
-/

deriving instance DecidableEq for Except

/-! ## Value types from `src/core/llm/models.py` -/

/-- `TokenUsage` dataclass: prompt, completion and total token counters
(`total_tokens` is an independent stored field, not a computed one). -/
structure TokenUsage where
  prompt_tokens : Nat := 0
  completion_tokens : Nat := 0
  total_tokens : Nat := 0
deriving DecidableEq, Repr

/-- Provider-neutral finish reasons, `FinishReason` of `src/core/llm/enums.py`. -/
inductive NFinishReason where
  | STOP
  | MAX_TOKENS
  | SAFETY
  | CONTENT_FILTER
  | RECITATION
  | OTHER
deriving DecidableEq, Repr

/-- `LLMResponse` dataclass of `src/core/llm/models.py` (the opaque
`raw_response` / `parsed` debugging fields are not part of the embedding). -/
structure LLMResponse where
  text : String
  finish_reason : NFinishReason
  usage : TokenUsage := {}
deriving DecidableEq, Repr

/-! ## Retry engine, `src/core/validation_error_handler.py` -/

/-- The exception values caught by the retry loop
(`except (json.JSONDecodeError, ValidationError, LLMError)`); the
`RateLimitError` subclass of `LLMError` is a separate constructor so that the
`isinstance(e, RateLimitError)` test is expressible.  Each constructor carries
`str(e)`. -/
inductive RetryError where
  | jsonDecode (msg : String)
  | validation (msg : String)
  | llmError (msg : String)
  | rateLimitError (msg : String)
deriving DecidableEq, Repr

/-- The `str(e)` rendering used by `_is_rate_limit_error`. -/
def RetryError.message : RetryError → String
  | .jsonDecode m => m
  | .validation m => m
  | .llmError m => m
  | .rateLimitError m => m

/-- The `isinstance(e, RateLimitError)` test. -/
def RetryError.isRateLimitInstance : RetryError → Bool
  | .rateLimitError _ => true
  | _ => false

/-- Structural prefix test on character lists (executable helper for the
Python substring operator). -/
def startsWithChars : List Char → List Char → Bool
  | [], _ => true
  | _ :: _, [] => false
  | a :: as, b :: bs => a == b && startsWithChars as bs

/-- Occurrence of `pat` as a contiguous run inside a character list. -/
def hasSubChars (pat : List Char) : List Char → Bool
  | [] => pat.isEmpty
  | c :: cs => startsWithChars pat (c :: cs) || hasSubChars pat cs

/-- Python `str.lower()` on the character sequence of a string. -/
def lowerChars (cs : List Char) : List Char :=
  cs.map Char.toLower

/-- Python substring test `pat in s` on strings. -/
def strContainsSub (s pat : String) : Bool :=
  hasSubChars pat.toList s.toList

/-- Keyword list of `ValidationErrorHandler._is_rate_limit_error`. -/
def rateLimitKeywords : List String :=
  ["429", "quota", "rate", "limit", "exhausted"]

/-- `ValidationErrorHandler._is_rate_limit_error`: any keyword occurring in
`str(error).lower()`. -/
def is_rate_limit_error (e : RetryError) : Bool :=
  rateLimitKeywords.any (fun k => hasSubChars k.toList (lowerChars e.message.toList))

/-- `ValidationErrorHandler._calculate_backoff_delay`, real semantics of the
float computation: base `min(2 ** attempt, 60)`, jitter
`base * 0.2 * (2 * random() - 1)`, floor `1.0`.  `rand` is the `random.random()`
draw. -/
def calculate_backoff_delay (attempt : Nat) (rand : ℚ) : ℚ :=
  let base_delay : ℚ := min (2 ^ attempt) 60
  let jitter : ℚ := base_delay * (1 / 5) * (2 * rand - 1)
  max (base_delay + jitter) 1

/-- Constructor parameters of `ValidationErrorHandler.__init__`. -/
structure HandlerConfig where
  max_retries : Nat := 3
  delay_between_retries : ℚ := 1
deriving Repr

/-- The sleep chosen by the retry loop for a caught error `e` at `attempt`
(lines 69-82 of `validation_error_handler.py`): exponential backoff with
jitter when `isinstance(e, RateLimitError) or self._is_rate_limit_error(e)`,
the fixed configured delay otherwise. -/
def retry_sleep_delay (cfg : HandlerConfig) (e : RetryError) (attempt : Nat)
    (rand : ℚ) : ℚ :=
  if e.isRateLimitInstance || is_rate_limit_error e then
    calculate_backoff_delay attempt rand
  else
    cfg.delay_between_retries

/-- Terminal failure of `validate_with_retry`: the `ValueError` raised after
the loop, carrying its message and the `from last_error` cause. -/
structure TerminalError where
  message : String
  cause : RetryError
deriving DecidableEq, Repr

/-- Message of the terminal `ValueError` (lines 90-93): distinguishes a last
`json.JSONDecodeError` from every other last error. -/
def terminalMessage (error_context : String) (max_retries : Nat)
    (lastError : RetryError) : String :=
  match lastError with
  | .jsonDecode _ =>
      error_context ++ " failed: JSON parsing error after " ++
        toString (max_retries + 1) ++ " attempts"
  | _ =>
      error_context ++ " failed: Validation error after " ++
        toString (max_retries + 1) ++ " attempts"

/-- One attempt body of `validate_with_retry`: call the generation closure,
parse the JSON (`_parse_json_response`, whose repair passes are folded into
the outcome of `parse`), then construct the pydantic model (`model_class(**parsed_data)`).
`gen` may itself raise one of the caught error kinds (an `LLMError`). -/
def attemptOutcome {D M : Type} (gen : Nat → Except RetryError String)
    (parse : String → Except String D) (mk : D → Except String M)
    (attempt : Nat) : Except RetryError M :=
  match gen attempt with
  | .error e => .error e
  | .ok s =>
    match parse s with
    | .error m => .error (.jsonDecode m)
    | .ok d =>
      match mk d with
      | .error m => .error (.validation m)
      | .ok v => .ok v

/-- The `for attempt in range(self.max_retries + 1)` loop, started at
`attempt` with `remaining = max_retries - attempt` (the loop continues after
a caught error exactly when `attempt < self.max_retries`); returns the number
of loop iterations executed (one generation invocation each) and the final
outcome (`.error` holds `last_error`). -/
def retryLoop {M : Type} (step : Nat → Except RetryError M) :
    Nat → Nat → Nat × Except RetryError M
  | attempt, 0 =>
    match step attempt with
    | .ok v => (1, .ok v)
    | .error e => (1, .error e)
  | attempt, n + 1 =>
    match step attempt with
    | .ok v => (1, .ok v)
    | .error _ =>
      let r := retryLoop step (attempt + 1) n
      (r.1 + 1, r.2)

/-- `ValidationErrorHandler.validate_with_retry`: runs the loop from attempt 0
and converts a final `last_error` into the terminal `ValueError`.  The first
component counts invocations of the generation closure. -/
def validate_with_retry {D M : Type} (cfg : HandlerConfig) (error_context : String)
    (gen : Nat → Except RetryError String) (parse : String → Except String D)
    (mk : D → Except String M) : Nat × Except TerminalError M :=
  let r := retryLoop (attemptOutcome gen parse mk) 0 cfg.max_retries
  (r.1, r.2.mapError (fun e => ⟨terminalMessage error_context cfg.max_retries e, e⟩))

/-! ## Lemmas about the retry loop -/

theorem retryLoop_all_fail {M : Type} (step : Nat → Except RetryError M) :
    ∀ (remaining attempt : Nat) (eLast : RetryError),
      (∀ i, i ≤ remaining → ∃ e, step (attempt + i) = .error e) →
      step (attempt + remaining) = .error eLast →
      retryLoop step attempt remaining = (remaining + 1, .error eLast) := by
  intro remaining
  induction remaining with
  | zero =>
    intro attempt eLast _ hlast
    simp only [Nat.add_zero] at hlast
    rw [retryLoop, hlast]
  | succ n ih =>
    intro attempt eLast hfail hlast
    obtain ⟨e, he⟩ := hfail 0 (Nat.zero_le _)
    simp only [Nat.add_zero] at he
    rw [retryLoop, he]
    dsimp only
    have hrec := ih (attempt + 1) eLast
      (fun i hi => by
        have := hfail (i + 1) (by omega)
        simpa [Nat.add_assoc, Nat.add_comm 1 i] using this)
      (by
        have h1 : attempt + 1 + n = attempt + (n + 1) := by omega
        rw [h1]
        exact hlast)
    simp [hrec]

/-- C2: for a generation closure whose text always fails JSON parsing, the
engine invokes the closure exactly `max_retries + 1` times and raises a
terminal error naming JSON parsing and carrying the last error as its cause;
when instead the last caught failure is a validation failure, the terminal
error names validation. -/
theorem validate_with_retry_terminal_bound {D M : Type} (cfg : HandlerConfig)
    (ctx : String) (gen : Nat → Except RetryError String)
    (parse : String → Except String D) (mk : D → Except String M) :
    ((∀ n, n ≤ cfg.max_retries → ∃ s m, gen n = .ok s ∧ parse s = .error m) →
      ∃ s m, gen cfg.max_retries = .ok s ∧ parse s = .error m ∧
        validate_with_retry cfg ctx gen parse mk =
          (cfg.max_retries + 1,
           .error ⟨ctx ++ " failed: JSON parsing error after " ++
             toString (cfg.max_retries + 1) ++ " attempts", .jsonDecode m⟩)) ∧
    (∀ m, (∀ n, n ≤ cfg.max_retries → ∃ e, attemptOutcome gen parse mk n = .error e) →
      attemptOutcome gen parse mk cfg.max_retries = .error (.validation m) →
      validate_with_retry cfg ctx gen parse mk =
        (cfg.max_retries + 1,
         .error ⟨ctx ++ " failed: Validation error after " ++
           toString (cfg.max_retries + 1) ++ " attempts", .validation m⟩)) := by
  constructor
  · intro hfail
    obtain ⟨s, m, hs, hm⟩ := hfail cfg.max_retries (le_refl _)
    refine ⟨s, m, hs, hm, ?_⟩
    have hstep : ∀ n, n ≤ cfg.max_retries →
        ∃ e, attemptOutcome gen parse mk n = .error e := by
      intro n hn
      obtain ⟨s', m', hs', hm'⟩ := hfail n hn
      exact ⟨.jsonDecode m', by simp [attemptOutcome, hs', hm']⟩
    have hlast : attemptOutcome gen parse mk cfg.max_retries =
        .error (.jsonDecode m) := by
      simp [attemptOutcome, hs, hm]
    have := retryLoop_all_fail (attemptOutcome gen parse mk) cfg.max_retries 0
      (.jsonDecode m) (fun i hi => by simpa using hstep i hi) (by simpa using hlast)
    simp [validate_with_retry, this, Except.mapError, terminalMessage]
  · intro m hstep hlast
    have := retryLoop_all_fail (attemptOutcome gen parse mk) cfg.max_retries 0
      (.validation m) (fun i hi => by simpa using hstep i hi) (by simpa using hlast)
    simp [validate_with_retry, this, Except.mapError, terminalMessage]

/-- Witness for the retry-bound theorem: a closure always returning the
unparsable text "oops" under 2 retries is invoked 3 times and the terminal
error names JSON parsing; with a pipeline always failing validation the
terminal error names validation. -/
theorem validate_with_retry_terminal_bound_witness :
    validate_with_retry (D := Nat) (M := Nat) ⟨2, 1⟩ "validation"
        (fun _ => .ok "oops") (fun _ => .error "Expecting value") (fun d => .ok d) =
      (3, .error ⟨"validation failed: JSON parsing error after 3 attempts",
        .jsonDecode "Expecting value"⟩) ∧
    validate_with_retry (D := Nat) (M := Nat) ⟨2, 1⟩ "validation"
        (fun _ => .ok "{}") (fun _ => .ok 0) (fun _ => .error "field required") =
      (3, .error ⟨"validation failed: Validation error after 3 attempts",
        .validation "field required"⟩) := by
  constructor
  · obtain ⟨s, m, hs, hm, hres⟩ :=
      (validate_with_retry_terminal_bound (D := Nat) (M := Nat) ⟨2, 1⟩ "validation"
        (fun _ => .ok "oops") (fun _ => .error "Expecting value") (fun d => .ok d)).1
        (fun n _ => ⟨"oops", "Expecting value", rfl, rfl⟩)
    have hs' : s = "oops" := by simpa using hs.symm
    have hm' : m = "Expecting value" := by
      subst hs'
      simpa using hm.symm
    subst hs' hm'
    exact hres
  · exact (validate_with_retry_terminal_bound (D := Nat) (M := Nat) ⟨2, 1⟩ "validation"
      (fun _ => .ok "{}") (fun _ => .ok 0) (fun _ => .error "field required")).2
      "field required" (fun n _ => ⟨.validation "field required", rfl⟩) rfl

/-- C3: a retryable error classified as rate-limit (a `RateLimitError`
instance, or any of "429"/"quota"/"rate"/"limit"/"exhausted" occurring in its
lowercased message) sleeps `max(b + b * 0.2 * u, 1)` seconds for
`b = min(2 ^ attempt, 60)` and a jitter `u ∈ [-1, 1]`; such a delay lies
within ±20% of `b` and never below 1 second, and is non-decreasing in the
attempt number for each fixed jitter draw (hence so are the expected delays);
every other caught error sleeps the fixed configured delay. -/
theorem backoff_delay_spec (cfg : HandlerConfig) (e : RetryError) (n : Nat)
    (rand : ℚ) (h0 : 0 ≤ rand) (h1 : rand ≤ 1) :
    ((e.isRateLimitInstance || is_rate_limit_error e) = true →
      (∃ u : ℚ, -1 ≤ u ∧ u ≤ 1 ∧
        retry_sleep_delay cfg e n rand =
          max (min (2 ^ n : ℚ) 60 + min (2 ^ n : ℚ) 60 * (1 / 5) * u) 1) ∧
      (4 / 5) * min (2 ^ n : ℚ) 60 ≤ retry_sleep_delay cfg e n rand ∧
      retry_sleep_delay cfg e n rand ≤ (6 / 5) * min (2 ^ n : ℚ) 60 ∧
      1 ≤ retry_sleep_delay cfg e n rand ∧
      (∀ m, n ≤ m → retry_sleep_delay cfg e n rand ≤ retry_sleep_delay cfg e m rand)) ∧
    ((e.isRateLimitInstance || is_rate_limit_error e) = false →
      retry_sleep_delay cfg e n rand = cfg.delay_between_retries) := by
  have hb : ∀ k : Nat, (1 : ℚ) ≤ min (2 ^ k : ℚ) 60 := by
    intro k
    refine le_min ?_ (by norm_num)
    exact one_le_pow₀ (by norm_num)
  have hmono : ∀ k l : Nat, k ≤ l → min (2 ^ k : ℚ) 60 ≤ min (2 ^ l : ℚ) 60 := by
    intro k l hkl
    exact min_le_min (pow_le_pow_right₀ (by norm_num) hkl) (le_refl _)
  constructor
  · intro hclass
    have hdelay : ∀ k, retry_sleep_delay cfg e k rand =
        max (min (2 ^ k : ℚ) 60 + min (2 ^ k : ℚ) 60 * (1 / 5) * (2 * rand - 1)) 1 := by
      intro k
      simp [retry_sleep_delay, hclass, calculate_backoff_delay]
    refine ⟨⟨2 * rand - 1, by linarith, by linarith, hdelay n⟩, ?_, ?_, ?_, ?_⟩
    · rw [hdelay n]
      have h2 : (4 / 5) * min (2 ^ n : ℚ) 60 ≤
          min (2 ^ n : ℚ) 60 + min (2 ^ n : ℚ) 60 * (1 / 5) * (2 * rand - 1) := by
        have := hb n
        nlinarith
      exact le_trans h2 (le_max_left _ _)
    · rw [hdelay n]
      refine max_le ?_ ?_
      · have := hb n
        nlinarith
      · have := hb n
        nlinarith
    · rw [hdelay n]
      exact le_max_right _ _
    · intro m hm
      rw [hdelay n, hdelay m]
      refine max_le_max ?_ (le_refl _)
      have h3 := hmono n m hm
      have h4 := hb n
      nlinarith
  · intro hclass
    simp [retry_sleep_delay, hclass]

/-- Witness for the backoff theorem: `RateLimitError` at attempt 0 with draw
1/2 gives a delay in [1, 1.2]; a validation error with a limit-free message
sleeps the fixed delay 2. -/
theorem backoff_delay_spec_witness :
    (1 ≤ retry_sleep_delay ⟨3, 2⟩ (.rateLimitError "Rate limit exceeded") 0 (1 / 2) ∧
     retry_sleep_delay ⟨3, 2⟩ (.rateLimitError "Rate limit exceeded") 0 (1 / 2) ≤
       (6 / 5) * min (2 ^ 0 : ℚ) 60) ∧
    retry_sleep_delay ⟨3, 2⟩ (.validation "missing field xyz") 0 (1 / 2) = 2 := by
  have h1 := (backoff_delay_spec ⟨3, 2⟩ (.rateLimitError "Rate limit exceeded") 0
    (1 / 2) (by norm_num) (by norm_num)).1 rfl
  have h2 := (backoff_delay_spec ⟨3, 2⟩ (.validation "missing field xyz") 0
    (1 / 2) (by norm_num) (by norm_num)).2 (by decide)
  exact ⟨⟨h1.2.2.2.1, h1.2.2.1⟩, h2⟩

/-! ## Usage-tracking variant, `validate_with_retry_and_usage` (lines 163-242) -/

/-- The `for` loop of `validate_with_retry_and_usage`, with the running
`total_input_tokens` / `total_output_tokens` accumulators as parameters.
On every attempt whose generation returns, the returned response usage is
added to the accumulators (also when parsing or validation then fails); on
success the *last* response is returned with `usage.prompt_tokens` and
`usage.completion_tokens` overwritten by the accumulated totals while
`usage.total_tokens` is left as the backend reported it (lines 208-213
assign only the two part counters). -/
def retryLoopUsage {D M : Type}
    (gen : Nat → Except RetryError (String × LLMResponse))
    (parse : String → Except String D) (mk : D → Except String M) :
    Nat → Nat → Nat → Nat → Nat × Except RetryError (M × LLMResponse)
  | attempt, 0, accIn, accOut =>
    match gen attempt with
    | .error e => (1, .error e)
    | .ok (s, resp) =>
      match parse s with
      | .error m => (1, .error (.jsonDecode m))
      | .ok d =>
        match mk d with
        | .error m => (1, .error (.validation m))
        | .ok v =>
          (1, .ok (v, { resp with usage :=
            { prompt_tokens := accIn + resp.usage.prompt_tokens,
              completion_tokens := accOut + resp.usage.completion_tokens,
              total_tokens := resp.usage.total_tokens } }))
  | attempt, n + 1, accIn, accOut =>
    match gen attempt with
    | .error _ =>
      let r := retryLoopUsage gen parse mk (attempt + 1) n accIn accOut
      (r.1 + 1, r.2)
    | .ok (s, resp) =>
      match parse s with
      | .error _ =>
        let r := retryLoopUsage gen parse mk (attempt + 1) n
          (accIn + resp.usage.prompt_tokens) (accOut + resp.usage.completion_tokens)
        (r.1 + 1, r.2)
      | .ok d =>
        match mk d with
        | .error _ =>
          let r := retryLoopUsage gen parse mk (attempt + 1) n
            (accIn + resp.usage.prompt_tokens) (accOut + resp.usage.completion_tokens)
          (r.1 + 1, r.2)
        | .ok v =>
          (1, .ok (v, { resp with usage :=
            { prompt_tokens := accIn + resp.usage.prompt_tokens,
              completion_tokens := accOut + resp.usage.completion_tokens,
              total_tokens := resp.usage.total_tokens } }))

/-- `ValidationErrorHandler.validate_with_retry_and_usage`. -/
def validate_with_retry_and_usage {D M : Type} (cfg : HandlerConfig)
    (error_context : String) (gen : Nat → Except RetryError (String × LLMResponse))
    (parse : String → Except String D) (mk : D → Except String M) :
    Nat × Except TerminalError (M × LLMResponse) :=
  let r := retryLoopUsage gen parse mk 0 cfg.max_retries 0 0
  (r.1, r.2.mapError (fun e => ⟨terminalMessage error_context cfg.max_retries e, e⟩))

/-- Prompt-token contribution of attempt `n`: the returned response usage,
or 0 when the generation closure raised. -/
def genPromptTokens (gen : Nat → Except RetryError (String × LLMResponse))
    (n : Nat) : Nat :=
  match gen n with
  | .ok (_, r) => r.usage.prompt_tokens
  | .error _ => 0

/-- Completion-token contribution of attempt `n`. -/
def genCompletionTokens (gen : Nat → Except RetryError (String × LLMResponse))
    (n : Nat) : Nat :=
  match gen n with
  | .ok (_, r) => r.usage.completion_tokens
  | .error _ => 0

/-- Shifting a window sum of per-attempt contributions by one attempt. -/
theorem attemptSumShift (f : Nat → Nat) (a k : Nat) :
    ((List.range (k + 2)).map (fun i => f (a + i))).sum
      = f a + ((List.range (k + 1)).map (fun i => f (a + 1 + i))).sum := by
  rw [List.range_succ_eq_map]
  simp only [List.map_cons, Nat.add_zero, List.map_map, List.sum_cons]
  congr 1
  apply congrArg
  apply List.map_congr_left
  intro i _
  simp only [Function.comp_apply]
  congr 1
  omega

theorem retryLoopUsage_ok_characterization {D M : Type}
    (gen : Nat → Except RetryError (String × LLMResponse))
    (parse : String → Except String D) (mk : D → Except String M) :
    ∀ (remaining attempt accIn accOut c : Nat) (v : M) (resp : LLMResponse),
      retryLoopUsage gen parse mk attempt remaining accIn accOut = (c, .ok (v, resp)) →
      ∃ k, k ≤ remaining ∧ ∃ s r0, gen (attempt + k) = .ok (s, r0) ∧
        c = k + 1 ∧
        resp = { r0 with usage :=
          { prompt_tokens :=
              accIn + ((List.range (k + 1)).map (fun i => genPromptTokens gen (attempt + i))).sum,
            completion_tokens :=
              accOut + ((List.range (k + 1)).map (fun i => genCompletionTokens gen (attempt + i))).sum,
            total_tokens := r0.usage.total_tokens } } := by
  intro remaining
  induction remaining with
  | zero =>
    intro attempt accIn accOut c v resp h
    rw [retryLoopUsage] at h
    cases hg : gen attempt with
    | error e =>
      rw [hg] at h
      exact absurd h (by simp)
    | ok sr =>
      obtain ⟨s, resp0⟩ := sr
      rw [hg] at h
      dsimp only at h
      cases hp : parse s with
      | error m =>
        rw [hp] at h
        exact absurd h (by simp)
      | ok d =>
        rw [hp] at h
        dsimp only at h
        cases hk : mk d with
        | error m =>
          rw [hk] at h
          exact absurd h (by simp)
        | ok v0 =>
          rw [hk] at h
          simp only [Prod.mk.injEq, Except.ok.injEq] at h
          obtain ⟨hc, hv, hresp⟩ := h
          refine ⟨0, le_refl _, s, resp0, by simpa using hg, by omega, ?_⟩
          subst hresp
          simp [genPromptTokens, genCompletionTokens, hg, List.range_succ]
  | succ n ih =>
    intro attempt accIn accOut c v resp h
    rw [retryLoopUsage] at h
    cases hg : gen attempt with
    | error e =>
      rw [hg] at h
      dsimp only at h
      rcases hres : retryLoopUsage gen parse mk (attempt + 1) n accIn accOut with ⟨c0, r2⟩
      rw [hres] at h
      dsimp only at h
      simp only [Prod.mk.injEq] at h
      obtain ⟨hc, hr2⟩ := h
      rw [hr2] at hres
      obtain ⟨k, hk, s1, r0, hgen, hcnt, hresp⟩ :=
        ih (attempt + 1) accIn accOut c0 v resp hres
      have hgen2 : gen (attempt + (k + 1)) = .ok (s1, r0) := by
        rwa [show attempt + (k + 1) = attempt + 1 + k by omega]
      refine ⟨k + 1, by omega, s1, r0, hgen2, by omega, ?_⟩
      rw [hresp]
      have hz : genPromptTokens gen attempt = 0 := by
        simp [genPromptTokens, hg]
      have hz2 : genCompletionTokens gen attempt = 0 := by
        simp [genCompletionTokens, hg]
      simp only [LLMResponse.mk.injEq, TokenUsage.mk.injEq, true_and, and_true]
      constructor
      · rw [attemptSumShift (fun i => genPromptTokens gen i) attempt k, hz]
        omega
      · rw [attemptSumShift (fun i => genCompletionTokens gen i) attempt k, hz2]
        omega
    | ok sr =>
      obtain ⟨s, resp0⟩ := sr
      rw [hg] at h
      dsimp only at h
      cases hp : parse s with
      | error m =>
        rw [hp] at h
        dsimp only at h
        rcases hres : retryLoopUsage gen parse mk (attempt + 1) n (accIn + resp0.usage.prompt_tokens) (accOut + resp0.usage.completion_tokens) with ⟨c0, r2⟩
        rw [hres] at h
        dsimp only at h
        simp only [Prod.mk.injEq] at h
        obtain ⟨hc, hr2⟩ := h
        rw [hr2] at hres
        obtain ⟨k, hk, s1, r0, hgen, hcnt, hresp⟩ :=
          ih (attempt + 1) (accIn + resp0.usage.prompt_tokens) (accOut + resp0.usage.completion_tokens) c0 v resp hres
        have hgen2 : gen (attempt + (k + 1)) = .ok (s1, r0) := by
          rwa [show attempt + (k + 1) = attempt + 1 + k by omega]
        refine ⟨k + 1, by omega, s1, r0, hgen2, by omega, ?_⟩
        rw [hresp]
        have hz : genPromptTokens gen attempt = resp0.usage.prompt_tokens := by
          simp [genPromptTokens, hg]
        have hz2 : genCompletionTokens gen attempt = resp0.usage.completion_tokens := by
          simp [genCompletionTokens, hg]
        simp only [LLMResponse.mk.injEq, TokenUsage.mk.injEq, true_and, and_true]
        constructor
        · rw [attemptSumShift (fun i => genPromptTokens gen i) attempt k, hz]
          omega
        · rw [attemptSumShift (fun i => genCompletionTokens gen i) attempt k, hz2]
          omega
      | ok d =>
        rw [hp] at h
        dsimp only at h
        cases hm : mk d with
        | error m =>
          rw [hm] at h
          dsimp only at h
          rcases hres : retryLoopUsage gen parse mk (attempt + 1) n (accIn + resp0.usage.prompt_tokens) (accOut + resp0.usage.completion_tokens) with ⟨c0, r2⟩
          rw [hres] at h
          dsimp only at h
          simp only [Prod.mk.injEq] at h
          obtain ⟨hc, hr2⟩ := h
          rw [hr2] at hres
          obtain ⟨k, hk, s1, r0, hgen, hcnt, hresp⟩ :=
            ih (attempt + 1) (accIn + resp0.usage.prompt_tokens) (accOut + resp0.usage.completion_tokens) c0 v resp hres
          have hgen2 : gen (attempt + (k + 1)) = .ok (s1, r0) := by
            rwa [show attempt + (k + 1) = attempt + 1 + k by omega]
          refine ⟨k + 1, by omega, s1, r0, hgen2, by omega, ?_⟩
          rw [hresp]
          have hz : genPromptTokens gen attempt = resp0.usage.prompt_tokens := by
            simp [genPromptTokens, hg]
          have hz2 : genCompletionTokens gen attempt = resp0.usage.completion_tokens := by
            simp [genCompletionTokens, hg]
          simp only [LLMResponse.mk.injEq, TokenUsage.mk.injEq, true_and, and_true]
          constructor
          · rw [attemptSumShift (fun i => genPromptTokens gen i) attempt k, hz]
            omega
          · rw [attemptSumShift (fun i => genCompletionTokens gen i) attempt k, hz2]
            omega
        | ok v0 =>
          rw [hm] at h
          simp only [Prod.mk.injEq, Except.ok.injEq] at h
          obtain ⟨hc, hv, hresp⟩ := h
          refine ⟨0, Nat.zero_le _, s, resp0, by simpa using hg, by omega, ?_⟩
          subst hresp
          simp [genPromptTokens, genCompletionTokens, hg, List.range_succ]

/-- C5 (amended): on success, the usage paired with the validated object has
prompt and completion counts equal to the sums over all attempts that
returned a response (a raising attempt contributes 0), while its
`total_tokens` is the backend-reported total of the last (successful)
response — it is not recomputed as the sum of the merged parts. -/
theorem validate_with_retry_and_usage_accumulates {D M : Type}
    (cfg : HandlerConfig) (ctx : String)
    (gen : Nat → Except RetryError (String × LLMResponse))
    (parse : String → Except String D) (mk : D → Except String M)
    (c : Nat) (v : M) (resp : LLMResponse)
    (h : validate_with_retry_and_usage cfg ctx gen parse mk = (c, .ok (v, resp))) :
    ∃ k, k ≤ cfg.max_retries ∧ ∃ s r0, gen k = .ok (s, r0) ∧ c = k + 1 ∧
      resp = { r0 with usage :=
        { prompt_tokens := ((List.range (k + 1)).map (genPromptTokens gen)).sum,
          completion_tokens := ((List.range (k + 1)).map (genCompletionTokens gen)).sum,
          total_tokens := r0.usage.total_tokens } } := by
  rcases hres : retryLoopUsage gen parse mk 0 cfg.max_retries 0 0 with ⟨c0, r2⟩
  rw [validate_with_retry_and_usage] at h
  rw [hres] at h
  dsimp only at h
  cases r2 with
  | error e => exact absurd h (by simp [Except.mapError])
  | ok p =>
    obtain ⟨v1, resp1⟩ := p
    simp only [Except.mapError, Prod.mk.injEq, Except.ok.injEq] at h
    obtain ⟨hc, hv, hresp⟩ := h
    subst hc hv hresp
    obtain ⟨k, hk, s, r0, hgen, hcnt, hr⟩ :=
      retryLoopUsage_ok_characterization gen parse mk cfg.max_retries 0 0 0 c0 v1 resp1 hres
    refine ⟨k, hk, s, r0, by simpa using hgen, hcnt, ?_⟩
    rw [hr]
    simp

/-- Inputs of the C5 counterexample run: the first attempt returns
unparsable text with usage (10, 5, 15), the second parsable text with usage
(20, 10, 999). -/
def genUsageCex : Nat → Except RetryError (String × LLMResponse) :=
  fun n =>
    if n = 0 then
      .ok ("bad", { text := "bad", finish_reason := .STOP, usage := ⟨10, 5, 15⟩ })
    else
      .ok ("good", { text := "good", finish_reason := .STOP, usage := ⟨20, 10, 999⟩ })

/-- Parse stub of the C5 counterexample run. -/
def parseUsageCex : String → Except String Nat :=
  fun s => if s = "good" then .ok 1 else .error "Expecting value"

/-- Model-construction stub of the C5 counterexample run. -/
def mkUsageCex : Nat → Except String Nat :=
  fun d => .ok d

/-- C5 counterexample: after one failed and one successful attempt the
returned usage is (30, 15, 999): the part counters are merged but
`total_tokens` keeps the last backend-reported 999 instead of the claimed
recomputed 30 + 15. -/
theorem usage_total_not_recomputed :
    validate_with_retry_and_usage ⟨3, 1⟩ "validation" genUsageCex parseUsageCex mkUsageCex =
      (2, .ok (1, { text := "good", finish_reason := .STOP, usage := ⟨30, 15, 999⟩ })) ∧
    (999 : Nat) ≠ 30 + 15 := by
  constructor
  · decide
  · decide

/-- Witness: the accumulation theorem applied to the concrete two-attempt run. -/
theorem validate_with_retry_and_usage_accumulates_witness :
    ∃ k, k ≤ 3 ∧ ∃ s r0, genUsageCex k = .ok (s, r0) ∧ (2 : Nat) = k + 1 ∧
      ({ text := "good", finish_reason := .STOP, usage := ⟨30, 15, 999⟩ } : LLMResponse) =
        { r0 with usage :=
          { prompt_tokens := ((List.range (k + 1)).map (genPromptTokens genUsageCex)).sum,
            completion_tokens := ((List.range (k + 1)).map (genCompletionTokens genUsageCex)).sum,
            total_tokens := r0.usage.total_tokens } } :=
  validate_with_retry_and_usage_accumulates ⟨3, 1⟩ "validation" genUsageCex
    parseUsageCex mkUsageCex 2 1
    { text := "good", finish_reason := .STOP, usage := ⟨30, 15, 999⟩ } (by decide)

/-! ## Content items and baseline selection, `src/services/orchestrator.py` -/

/-- `ContentItem` of `src/schemas/models/common/content_item.py`; the
optional `datetime` stamps are modelled as naturals under their order. -/
structure ContentItem where
  content_id : Int
  content : String
  has_image : Bool := false
  created_at : Option Nat := none
  updated_at : Option Nat := none
deriving DecidableEq, Repr

/-- Python `max(iterable, key=...)` started from a first element: a later
element replaces the current best only when its key is strictly greater, so
the first maximal element wins. -/
def pyMaxBy {α : Type} (key : α → Nat) : α → List α → α
  | best, [] => best
  | best, x :: xs => pyMaxBy key (if key x > key best then x else best) xs

/-- The `get_latest_time` closure of `select_baseline_content_id`:
`c.updated_at or c.created_at`.  It is only applied to items having at least
one stamp, so the `getD 0` default for a doubly-missing stamp is never used
there. -/
def get_latest_time (c : ContentItem) : Nat :=
  match c.updated_at with
  | some t => t
  | none => c.created_at.getD 0

/-- `AgentOrchestrator.select_baseline_content_id` (lines 296-323): among the
items having any timestamp pick the one maximising `get_latest_time`;
if none has a timestamp pick the largest `content_id`; `None` on empty
input. -/
def select_baseline_content_id (contents : List ContentItem) : Option Int :=
  if contents.isEmpty then none
  else
    let contents_with_time :=
      contents.filter fun c => c.updated_at.isSome || c.created_at.isSome
    match contents_with_time with
    | c0 :: rest => some (pyMaxBy get_latest_time c0 rest).content_id
    | [] =>
      match contents.map (fun c => c.content_id) with
      | [] => none
      | i :: is => some (is.foldl max i)

theorem pyMaxBy_spec {α : Type} (key : α → Nat) :
    ∀ (xs : List α) (b : α),
      (pyMaxBy key b xs = b ∨ pyMaxBy key b xs ∈ xs) ∧
      key b ≤ key (pyMaxBy key b xs) ∧
      ∀ x ∈ xs, key x ≤ key (pyMaxBy key b xs) := by
  intro xs
  induction xs with
  | nil =>
    intro b
    exact ⟨Or.inl rfl, le_refl _, by simp⟩
  | cons x xs ih =>
    intro b
    rw [pyMaxBy]
    by_cases hx : key x > key b
    · rw [if_pos hx]
      obtain ⟨hmem, hge, hall⟩ := ih x
      refine ⟨?_, le_trans (le_of_lt hx) hge, ?_⟩
      · rcases hmem with h | h
        · exact Or.inr (by rw [h]; exact List.mem_cons_self x xs)
        · exact Or.inr (List.mem_cons_of_mem x h)
      · intro y hy
        rcases List.mem_cons.mp hy with rfl | hy'
        · exact hge
        · exact hall y hy'
    · rw [if_neg hx]
      obtain ⟨hmem, hge, hall⟩ := ih b
      push_neg at hx
      refine ⟨?_, hge, ?_⟩
      · rcases hmem with h | h
        · exact Or.inl h
        · exact Or.inr (List.mem_cons_of_mem x h)
      · intro y hy
        rcases List.mem_cons.mp hy with rfl | hy'
        · exact le_trans hx hge
        · exact hall y hy'

theorem foldlMax_spec :
    ∀ (xs : List Int) (b : Int),
      (xs.foldl max b = b ∨ xs.foldl max b ∈ xs) ∧ b ≤ xs.foldl max b ∧
      ∀ x ∈ xs, x ≤ xs.foldl max b := by
  intro xs
  induction xs with
  | nil =>
    intro b
    exact ⟨Or.inl rfl, le_refl _, by simp⟩
  | cons x xs ih =>
    intro b
    simp only [List.foldl_cons]
    obtain ⟨hmem, hge, hall⟩ := ih (max b x)
    refine ⟨?_, le_trans (le_max_left _ _) hge, ?_⟩
    · rcases hmem with h | h
      · rcases max_choice b x with hm | hm
        · exact Or.inl (h.trans hm)
        · exact Or.inr (List.mem_cons.mpr (Or.inl (h.trans hm)))
      · exact Or.inr (List.mem_cons_of_mem x h)
    · intro y hy
      rcases List.mem_cons.mp hy with rfl | hy'
      · exact le_trans (le_max_right b y) hge
      · exact hall y hy'

/-- C8 (amended): for a non-empty content list, when at least one item has a
timestamp the baseline is the id of an item maximising `get_latest_time`
(the updated stamp when present, otherwise the created stamp — not the later
of the two); when no item has a timestamp the baseline is the largest id. -/
theorem select_baseline_content_id_spec (contents : List ContentItem)
    (hne : contents.isEmpty = false) :
    ((∃ c ∈ contents, (c.updated_at.isSome || c.created_at.isSome) = true) →
      ∃ c, c ∈ contents ∧ (c.updated_at.isSome || c.created_at.isSome) = true ∧
        select_baseline_content_id contents = some c.content_id ∧
        ∀ d ∈ contents, (d.updated_at.isSome || d.created_at.isSome) = true →
          get_latest_time d ≤ get_latest_time c) ∧
    ((∀ c ∈ contents, c.updated_at = none ∧ c.created_at = none) →
      ∃ c, c ∈ contents ∧ select_baseline_content_id contents = some c.content_id ∧
        ∀ d ∈ contents, d.content_id ≤ c.content_id) := by
  constructor
  · intro ⟨c, hc, hct⟩
    cases hf : contents.filter (fun c => c.updated_at.isSome || c.created_at.isSome) with
    | nil =>
      exact absurd (List.mem_filter.mpr ⟨hc, hct⟩) (by rw [hf]; simp)
    | cons c0 rest =>
      obtain ⟨hmem, _, hall⟩ := pyMaxBy_spec get_latest_time rest c0
      have hbest : pyMaxBy get_latest_time c0 rest ∈ c0 :: rest := by
        rcases hmem with h | h
        · rw [h]; exact List.mem_cons_self c0 rest
        · exact List.mem_cons_of_mem c0 h
      have hbestf : pyMaxBy get_latest_time c0 rest ∈
          contents.filter (fun c => c.updated_at.isSome || c.created_at.isSome) := by
        rw [hf]; exact hbest
      obtain ⟨hbmem, hbp⟩ := List.mem_filter.mp hbestf
      refine ⟨pyMaxBy get_latest_time c0 rest, hbmem, hbp, ?_, ?_⟩
      · rw [select_baseline_content_id, if_neg (by simp [hne])]
        rw [hf]
      · intro d hd hdt
        have hdf : d ∈ c0 :: rest := by
          rw [← hf]; exact List.mem_filter.mpr ⟨hd, hdt⟩
        rcases List.mem_cons.mp hdf with rfl | hd'
        · exact (pyMaxBy_spec get_latest_time rest d).2.1
        · exact hall d hd'
  · intro hnone
    have hf : contents.filter (fun c => c.updated_at.isSome || c.created_at.isSome) = [] := by
      apply List.filter_eq_nil_iff.mpr
      intro c hc
      obtain ⟨h1, h2⟩ := hnone c hc
      simp [h1, h2]
    cases hcs : contents with
    | nil => rw [hcs] at hne; simp at hne
    | cons c0 rest =>
      obtain ⟨hmem, hge, hall⟩ := foldlMax_spec (rest.map (fun c => c.content_id)) c0.content_id
      have hbain : (rest.map (fun c => c.content_id)).foldl max c0.content_id ∈
          (c0 :: rest).map (fun c => c.content_id) := by
        rcases hmem with h | h
        · rw [h]; simp
        · simp only [List.map_cons, List.mem_cons]
          exact Or.inr h
      obtain ⟨cb, hcb, hcbid⟩ := List.mem_map.mp hbain
      refine ⟨cb, hcb, ?_, ?_⟩
      · rw [select_baseline_content_id, if_neg (by simp)]
        rw [hcs] at hf
        simp only [hf, List.map_cons]
        rw [hcbid]
      · intro d hd
        rcases List.mem_cons.mp hd with rfl | hd'
        · rw [hcbid]; exact hge
        · rw [hcbid]
          exact hall d.content_id (List.mem_map.mpr ⟨d, hd', rfl⟩)

/-- Item with an early update stamp but a late creation stamp. -/
def cexItemA : ContentItem :=
  { content_id := 1, content := "a", created_at := some 5, updated_at := some 1 }

/-- Item with only a middling creation stamp. -/
def cexItemB : ContentItem :=
  { content_id := 2, content := "b", created_at := some 3 }

/-- C8 counterexample: the most recent of item A's two stamps is 5, later
than item B's 3, so the claimed rule picks id 1; the code keys item A by its
updated stamp 1 (`updated_at or created_at`) and selects id 2. -/
theorem baseline_not_most_recent_of_both :
    select_baseline_content_id [cexItemA, cexItemB] = some 2 ∧
    max (cexItemA.updated_at.getD 0) (cexItemA.created_at.getD 0) = 5 ∧
    max (cexItemB.updated_at.getD 0) (cexItemB.created_at.getD 0) = 3 ∧
    cexItemA.content_id = 1 ∧ (3 : Nat) < 5 ∧
    select_baseline_content_id [cexItemA, cexItemB] ≠ some cexItemA.content_id := by
  refine ⟨by decide, by decide, by decide, by decide, by decide, by decide⟩

/-- Witness: the two concrete scenarios of the specification, settled by the
amended theorem.  Items {no stamps, created 1, updated 2} select the
updated-2 item; untimestamped ids {5, 1, 9} select 9. -/
theorem select_baseline_content_id_spec_witness :
    (∃ c, c ∈ [⟨7, "x", false, none, none⟩, ⟨8, "y", false, some 1, none⟩,
          (⟨9, "z", false, none, some 2⟩ : ContentItem)] ∧
      (c.updated_at.isSome || c.created_at.isSome) = true ∧
      select_baseline_content_id [⟨7, "x", false, none, none⟩,
        ⟨8, "y", false, some 1, none⟩, ⟨9, "z", false, none, some 2⟩] = some c.content_id ∧
      ∀ d ∈ [⟨7, "x", false, none, none⟩, ⟨8, "y", false, some 1, none⟩,
          (⟨9, "z", false, none, some 2⟩ : ContentItem)],
        (d.updated_at.isSome || d.created_at.isSome) = true →
          get_latest_time d ≤ get_latest_time c) ∧
    (∃ c, c ∈ [⟨5, "p", false, none, none⟩, ⟨1, "q", false, none, none⟩,
          (⟨9, "r", false, none, none⟩ : ContentItem)] ∧
      select_baseline_content_id [⟨5, "p", false, none, none⟩,
        ⟨1, "q", false, none, none⟩, ⟨9, "r", false, none, none⟩] = some c.content_id ∧
      ∀ d ∈ [⟨5, "p", false, none, none⟩, ⟨1, "q", false, none, none⟩,
          (⟨9, "r", false, none, none⟩ : ContentItem)], d.content_id ≤ c.content_id) := by
  constructor
  · exact (select_baseline_content_id_spec _ (by decide)).1
      ⟨⟨8, "y", false, some 1, none⟩, by decide, by decide⟩
  · exact (select_baseline_content_id_spec _ (by decide)).2 (by decide)

/-! ## Two-pass merge, `AgentOrchestrator.analysis` (orchestrator.py 148-189)

The merge logic itself is embedded from the source.  The structuring-pass and
refinement-pass result types it consumes are produced by
`LLMService.structure_content_analysis` / `refine_analysis_summary`, whose
current implementations are not part of the checked-in sources (the shipped
`llm_service.py` predates them), so those record types are modelled from the
specification (§3: StructuredAnalysisResult, RefinedSummary) together with
the fields the orchestrator reads from them. -/

/-- SentimentType of `src/schemas/enums/sentiment_type.py`. -/
inductive SentimentType where
  | positive
  | negative
  | neutral
deriving DecidableEq, Repr

/-- SentimentContent of `src/schemas/models/common/sentiment_content.py`
(an id plus a sentiment score). -/
structure SentimentContent where
  id : Int
  score : ℚ
deriving DecidableEq, Repr

/-- HighlightItem of `src/schemas/models/common/highlight_item.py`. -/
structure HighlightItem where
  id : Int
  keyword : String
  highlight : String
  content : String
deriving DecidableEq, Repr

/-- Modelled from the spec: one category of the structuring-pass result
(the spec's Category of StructuredAnalysisResult), with exactly the fields
`AgentOrchestrator.analysis` reads: name, stable key, summary, keyword list,
display highlight, sentiment class, positive/negative content lists and
highlight list. -/
structure StructuredCategory where
  name : String
  key : String
  summary : String
  keywords : List String
  display_highlight : String
  sentiment_type : SentimentType
  positive_contents : List SentimentContent
  negative_contents : List SentimentContent
  highlights : List HighlightItem
deriving DecidableEq, Repr

/-- Modelled from the spec: the structuring-pass result
(StructuredAnalysisResult): overall summary, top-level keyword/point lists
and the ordered category list (the harmful/excluded lists are not read by
the merge). -/
structure StructuredAnalysisResult where
  summary : String
  keywords : List String
  good_points : List String
  caution_points : List String
  categories : List StructuredCategory
deriving DecidableEq, Repr

/-- Modelled from the spec: one per-category entry of the refinement-pass
output (key, refined summary, refined keywords). -/
structure RefinedCategoryEntry where
  key : String
  summary : String
  keywords : List String
deriving DecidableEq, Repr

/-- Modelled from the spec: the refinement-pass output (RefinedSummary):
length-bounded overall summary, top-level keyword/point lists, per-category
entries. -/
structure RefinedSummary where
  summary : String
  keywords : List String
  good_points : List String
  caution_points : List String
  categories : List RefinedCategoryEntry
deriving DecidableEq, Repr

/-- RefineHighlightItem of
`src/schemas/models/common/structured_analysis_refine_result.py`. -/
structure RefineHighlightItem where
  id : Int
  keyword : String
  highlight : String
  content : String
deriving DecidableEq, Repr

/-- RefineCategoryItem as constructed by the orchestrator (name, key, merged
summary/keywords, display highlight, sentiment, the two counts, highlights).
The keyword field is modelled from the spec's FinalResult (the checked-in
pydantic model predates it and would silently drop the constructor
argument). -/
structure RefineCategoryItem where
  name : String
  key : String
  summary : String
  keywords : List String
  display_highlight : String
  sentiment_type : SentimentType
  positive_count : Nat
  negative_count : Nat
  highlights : List RefineHighlightItem
deriving DecidableEq, Repr

/-- StructuredAnalysisRefineResult as constructed by the orchestrator
(top-level keywords/points modelled from the spec, as for
RefineCategoryItem). -/
structure StructuredAnalysisRefineResult where
  summary : String
  keywords : List String
  good_points : List String
  caution_points : List String
  categories : List RefineCategoryItem
deriving DecidableEq, Repr

/-- The `refined_map` dict comprehension of orchestrator.py line 151 followed
by `refined_map.get(key)`: iterated insertion where a later entry with the
same key overwrites an earlier one. -/
def refinedLookup (cats : List RefinedCategoryEntry) (k : String) :
    Option RefinedCategoryEntry :=
  cats.foldl (fun acc c => if c.key = k then some c else acc) none

/-- The merge of orchestrator.py lines 148-189: every structuring category is
rebuilt in order; its summary and keywords are replaced by the refined map
entry for its key when present (`refined_data.get("summary", base_cat.summary)`
with both keys always present in an entry), otherwise kept; counts are the
lengths of the original content lists; highlights are copied; the top-level
summary and keyword/point lists are always those of the refinement pass. -/
def merge_refinement (base : StructuredAnalysisResult) (ref : RefinedSummary) :
    StructuredAnalysisRefineResult :=
  { summary := ref.summary
    keywords := ref.keywords
    good_points := ref.good_points
    caution_points := ref.caution_points
    categories := base.categories.map fun bc =>
      let refined_data := refinedLookup ref.categories bc.key
      { name := bc.name
        key := bc.key
        summary := match refined_data with
          | some rc => rc.summary
          | none => bc.summary
        keywords := match refined_data with
          | some rc => rc.keywords
          | none => bc.keywords
        display_highlight := bc.display_highlight
        sentiment_type := bc.sentiment_type
        positive_count := bc.positive_contents.length
        negative_count := bc.negative_contents.length
        highlights := bc.highlights.map fun h =>
          { id := h.id, keyword := h.keyword, highlight := h.highlight,
            content := h.content } } }

theorem refinedLookup_isSome_iff (cats : List RefinedCategoryEntry) (k : String) :
    (refinedLookup cats k).isSome = true ↔ k ∈ cats.map (fun c => c.key) := by
  suffices h : ∀ (acc : Option RefinedCategoryEntry),
      ((cats.foldl (fun acc c => if c.key = k then some c else acc) acc).isSome = true) ↔
        (acc.isSome = true ∨ k ∈ cats.map (fun c => c.key)) by
    have := h none
    simpa [refinedLookup] using this
  induction cats with
  | nil => intro acc; simp
  | cons c cs ih =>
    intro acc
    simp only [List.foldl_cons, List.map_cons, List.mem_cons]
    rw [ih]
    by_cases hc : c.key = k
    · simp [hc]
    · simp [hc, Ne.symm hc]

theorem forall₂_map_self {α β : Type} (R : α → β → Prop) (f : α → β) :
    ∀ l : List α, (∀ x ∈ l, R x (f x)) → List.Forall₂ R l (l.map f) := by
  intro l
  induction l with
  | nil => intro _; simp
  | cons x xs ih =>
    intro h
    simp only [List.map_cons]
    exact List.Forall₂.cons (h x (List.mem_cons_self x xs))
      (ih (fun y hy => h y (List.mem_cons_of_mem x hy)))

/-- C1: the merged result carries the refinement pass's top-level summary;
its category list has the same length and order as the structuring result's,
each category keeping its original name, key, display highlight, sentiment,
counts and highlights; summary and keywords are replaced by the refined map
entry exactly when the category key appears in the refinement result's
category map (and kept otherwise, the category never being dropped);
refinement keys absent from the structuring result add no categories. -/
theorem orchestrator_merge_spec (base : StructuredAnalysisResult)
    (ref : RefinedSummary) :
    (merge_refinement base ref).summary = ref.summary ∧
    (merge_refinement base ref).categories.length = base.categories.length ∧
    (∀ mc ∈ (merge_refinement base ref).categories,
      ∃ bc ∈ base.categories, mc.key = bc.key) ∧
    (∀ k, (refinedLookup ref.categories k).isSome = true ↔
      k ∈ ref.categories.map (fun c => c.key)) ∧
    List.Forall₂ (fun bc mc =>
        mc.name = bc.name ∧ mc.key = bc.key ∧
        mc.display_highlight = bc.display_highlight ∧
        mc.sentiment_type = bc.sentiment_type ∧
        mc.positive_count = bc.positive_contents.length ∧
        mc.negative_count = bc.negative_contents.length ∧
        mc.highlights.map (fun h => (h.id, h.keyword, h.highlight, h.content)) =
          bc.highlights.map (fun h => (h.id, h.keyword, h.highlight, h.content)) ∧
        (match refinedLookup ref.categories bc.key with
         | some rc => mc.summary = rc.summary ∧ mc.keywords = rc.keywords
         | none => mc.summary = bc.summary ∧ mc.keywords = bc.keywords))
      base.categories (merge_refinement base ref).categories := by
  refine ⟨rfl, by simp [merge_refinement], ?_, ?_, ?_⟩
  · intro mc hmc
    simp only [merge_refinement, List.mem_map] at hmc
    obtain ⟨bc, hbc, hmk⟩ := hmc
    exact ⟨bc, hbc, by rw [← hmk]⟩
  · intro k
    exact refinedLookup_isSome_iff ref.categories k
  · dsimp only [merge_refinement]
    apply forall₂_map_self
    intro bc _
    dsimp only
    rcases hl : refinedLookup ref.categories bc.key with _ | rc <;> simp [hl]

/-! ## Completion-reason-aware text extraction,
`LLMService._safe_generate_content` (llm_service.py 239-295) -/

/-- FinishReason IntEnum of `src/schemas/enums/finish_reason.py`
(Vertex AI candidate finish reasons, codes 0-10). -/
inductive FinishReason where
  | FINISH_REASON_UNSPECIFIED
  | STOP
  | MAX_TOKENS
  | SAFETY
  | RECITATION
  | OTHER
  | BLOCKLIST
  | PROHIBITED_CONTENT
  | SPII
  | MALFORMED_FUNCTION_CALL
  | MODEL_ARMOR
deriving DecidableEq, Repr

/-- FinishReason.from_value: `cls(int(value))` with any ValueError/TypeError
(absent code, non-enum code) falling back to FINISH_REASON_UNSPECIFIED. -/
def FinishReason.from_value : Option Int → FinishReason
  | none => .FINISH_REASON_UNSPECIFIED
  | some v =>
    if v = 0 then .FINISH_REASON_UNSPECIFIED
    else if v = 1 then .STOP
    else if v = 2 then .MAX_TOKENS
    else if v = 3 then .SAFETY
    else if v = 4 then .RECITATION
    else if v = 5 then .OTHER
    else if v = 6 then .BLOCKLIST
    else if v = 7 then .PROHIBITED_CONTENT
    else if v = 8 then .SPII
    else if v = 9 then .MALFORMED_FUNCTION_CALL
    else if v = 10 then .MODEL_ARMOR
    else .FINISH_REASON_UNSPECIFIED

/-- The parts of a Vertex AI generation response read by
`_safe_generate_content`: the candidate list (None when the response has no
`candidates` attribute; each element is that candidate's finish-reason code,
`getattr(candidate, 'finish_reason', None)`) and the outcome of the
`response.text` accessor (whose ValueError/AttributeError the source
catches).  The usage metadata is only logged and is not modelled. -/
structure VertexGenResponse where
  candidates : Option (List (Option Int))
  text_access : Except Unit String
deriving DecidableEq, Repr

/-- Failure modes raised by `_safe_generate_content`: the MAX_TOKENS
truncation ValueError (line 283), the SAFETY ValueError (line 286) and the
cannot-extract-text ValueError (line 292). -/
inductive SafeGenError where
  | truncated
  | safetyBlocked
  | cannotExtract
deriving DecidableEq, Repr

/-- `LLMService._safe_generate_content` after the model call: when the
response has a non-empty candidate list, the first candidate's finish reason
raises on MAX_TOKENS and on SAFETY; every other reason (including
RECITATION, BLOCKLIST, PROHIBITED_CONTENT, SPII) falls through to
`return response.text`, whose ValueError/AttributeError becomes the
cannot-extract failure.  The returned text is never tested for emptiness. -/
def safe_generate_content (r : VertexGenResponse) : Except SafeGenError String :=
  let extract : Except SafeGenError String :=
    match r.text_access with
    | .ok t => .ok t
    | .error _ => .error .cannotExtract
  match r.candidates with
  | some (c0 :: _) =>
    let fr := FinishReason.from_value c0
    if fr = .MAX_TOKENS then .error .truncated
    else if fr = .SAFETY then .error .safetyBlocked
    else extract
  | _ => extract

/-- C4 counterexample: a MAX_TOKENS (code 2) response with non-empty partial
text raises instead of returning the partial text with a warning; a
RECITATION (code 4) response returns its text instead of raising; an empty
text under a normal STOP is returned, not treated as a hard failure. -/
theorem text_extraction_branches_differ :
    safe_generate_content ⟨some [some 2], .ok "partial json"⟩ = .error .truncated ∧
    (Except.error SafeGenError.truncated ≠
      (.ok "partial json" : Except SafeGenError String)) ∧
    safe_generate_content ⟨some [some 4], .ok "recited text"⟩ = .ok "recited text" ∧
    safe_generate_content ⟨some [some 1], .ok ""⟩ = .ok "" := by
  refine ⟨by decide, by decide, by decide, by decide⟩

/-- C4 (amended): with a non-empty candidate list, a MAX_TOKENS first
candidate raises the truncation failure (not a soft warning), a SAFETY one
raises the safety failure, and every other reason — citation and
content-filter blocks included — returns the extracted text unchanged (empty
text included); a failing `response.text` accessor raises the
cannot-extract failure. -/
theorem safe_generate_content_spec (r : VertexGenResponse) (c0 : Option Int)
    (rest : List (Option Int)) (hc : r.candidates = some (c0 :: rest)) :
    (FinishReason.from_value c0 = .MAX_TOKENS →
      safe_generate_content r = .error .truncated) ∧
    (FinishReason.from_value c0 = .SAFETY →
      safe_generate_content r = .error .safetyBlocked) ∧
    (FinishReason.from_value c0 ≠ .MAX_TOKENS →
      FinishReason.from_value c0 ≠ .SAFETY →
      ∀ t, r.text_access = .ok t → safe_generate_content r = .ok t) ∧
    (FinishReason.from_value c0 ≠ .MAX_TOKENS →
      FinishReason.from_value c0 ≠ .SAFETY →
      ∀ u, r.text_access = .error u →
        safe_generate_content r = .error .cannotExtract) := by
  refine ⟨?_, ?_, ?_, ?_⟩
  · intro hf
    simp [safe_generate_content, hc, hf]
  · intro hf
    rw [safe_generate_content, hc]
    simp [hf]
  · intro h1 h2 t ht
    rw [safe_generate_content, hc]
    simp [h1, h2, ht]
  · intro h1 h2 u hu
    rw [safe_generate_content, hc]
    simp [h1, h2, hu]

/-- Witness: a RECITATION-blocked response with empty text is returned as
empty text (no hard failure), by the amended theorem at a concrete input. -/
theorem safe_generate_content_spec_witness :
    safe_generate_content ⟨some [some 4], .ok ""⟩ = .ok "" :=
  (safe_generate_content_spec ⟨some [some 4], .ok ""⟩ (some 4) [] rfl).2.2.1
    (by decide) (by decide) "" rfl

/-! ## Token counting: `OpenAIProviderFactory.count_tokens`,
`VertexAIProviderFactory.count_tokens`, `LLMService.count_total_tokens` -/

/-- Kinds of Python exception relevant to the token-counting handlers: the
`except KeyError` clause distinguishes KeyError from everything else
(tiktoken's `encode` raises ValueError on disallowed special tokens, and
`encoding_for_model` can fail with non-KeyError errors too). -/
inductive PyExcKind where
  | keyError
  | valueError
  | otherError
deriving DecidableEq, Repr

/-- Outcomes of the tiktoken backend calls made by
`OpenAIProviderFactory.count_tokens`. -/
structure TiktokenEnv where
  importOk : Bool
  primary : Except PyExcKind Nat
  fallbackCl : Except PyExcKind Nat
deriving DecidableEq, Repr

/-- `OpenAIProviderFactory.count_tokens` (openai/factory.py 188-216):
a failed import falls back to `len(text) // 4`; the primary
`encoding_for_model` + `encode` call is guarded only by `except KeyError`,
which retries with the cl100k_base encoding and falls back to
`len(text) // 4` on any failure there; a non-KeyError failure of the primary
call propagates. -/
def openai_count_tokens (env : TiktokenEnv) (text : String) :
    Except PyExcKind Nat :=
  if !env.importOk then .ok (text.length / 4)
  else
    match env.primary with
    | .ok n => .ok n
    | .error e =>
      if e = .keyError then
        match env.fallbackCl with
        | .ok n => .ok n
        | .error _ => .ok (text.length / 4)
      else .error e

/-- `VertexAIProviderFactory.count_tokens` (vertexai/factory.py 138-159)
after the client is initialized: the whole backend call is wrapped in
`except Exception`, falling back to `len(text) // 2`, so the body never
raises (the lazy `initialize()` before the try block is not part of the
counting body). -/
def vertexai_count_tokens (call : Except PyExcKind Nat) (text : String) : Nat :=
  match call with
  | .ok n => n
  | .error _ => text.length / 2

/-- `LLMService.count_total_tokens` (llm_service.py 75-85): per-text loop,
each backend failure replaced by the `len(text) // 2` estimate. -/
def count_total_tokens (counts : String → Except PyExcKind Nat)
    (contents : List String) : Nat :=
  contents.foldl
    (fun total text =>
      match counts text with
      | .ok n => total + n
      | .error _ => total + text.length / 2) 0

/-- C9 counterexample: with tiktoken importable and the primary
encode call failing with a ValueError (e.g. text containing a disallowed
special token), `OpenAIProviderFactory.count_tokens` propagates the error
instead of returning the length-based estimate — the operation is not
total. -/
theorem openai_count_tokens_can_raise :
    openai_count_tokens ⟨true, .error .valueError, .ok 1⟩ "<|endoftext|>" =
      .error .valueError ∧
    (Except.error PyExcKind.valueError ≠
      (.ok ("<|endoftext|>".length / 4) : Except PyExcKind Nat)) := by
  refine ⟨by decide, by decide⟩

/-- C9 (amended): the Vertex AI counting body and the per-text totalling
loop are total, substituting the crude length estimates (`len // 2`) on any
backend failure; the OpenAI counter falls back to `len // 4` on a missing
package, retries on a KeyError and falls back to `len // 4` when the retry
fails, but propagates any non-KeyError failure of the primary call. -/
theorem token_counting_fallback_spec (env : TiktokenEnv)
    (call : Except PyExcKind Nat) (text : String)
    (counts : String → Except PyExcKind Nat) (contents : List String) :
    (∀ e, call = .error e → vertexai_count_tokens call text = text.length / 2) ∧
    (∀ n, call = .ok n → vertexai_count_tokens call text = n) ∧
    (env.importOk = false → openai_count_tokens env text = .ok (text.length / 4)) ∧
    (env.primary = .error .keyError → ∀ e2, env.fallbackCl = .error e2 →
      openai_count_tokens env text = .ok (text.length / 4)) ∧
    (∀ e, env.importOk = true → env.primary = .error e → e ≠ .keyError →
      openai_count_tokens env text = .error e) ∧
    ((∀ t ∈ contents, ∃ e, counts t = .error e) →
      count_total_tokens counts contents =
        (contents.map (fun t => t.length / 2)).sum) := by
  refine ⟨?_, ?_, ?_, ?_, ?_, ?_⟩
  · intro e he
    simp [vertexai_count_tokens, he]
  · intro n hn
    simp [vertexai_count_tokens, hn]
  · intro h
    simp [openai_count_tokens, h]
  · intro hp e2 hf
    cases him : env.importOk with
    | false => simp [openai_count_tokens, him]
    | true => simp [openai_count_tokens, him, hp, hf]
  · intro e him hp hne
    simp [openai_count_tokens, him, hp, hne]
  · intro hall
    rw [count_total_tokens]
    suffices h : ∀ (l : List String) (acc : Nat), (∀ t ∈ l, ∃ e, counts t = .error e) →
        l.foldl (fun total text =>
          match counts text with
          | .ok n => total + n
          | .error _ => total + text.length / 2) acc =
          acc + (l.map (fun t => t.length / 2)).sum by
      simpa using h contents 0 hall
    intro l
    induction l with
    | nil => intro acc _; simp
    | cons t ts ih =>
      intro acc hl
      obtain ⟨e, he⟩ := hl t (List.mem_cons_self t ts)
      simp only [List.foldl_cons, he, List.map_cons, List.sum_cons]
      rw [ih _ (fun u hu => hl u (List.mem_cons_of_mem t hu))]
      rw [Nat.add_assoc]

/-- Witness: the fallback paths and the propagating path at concrete
inputs: a failing Vertex call on "hello" yields 2; a missing tiktoken on
"abcdefgh" yields 2 tokens; a KeyError with failing cl100k retry estimates;
a ValueError propagates; an always-failing backend totals the estimates. -/
theorem token_counting_fallback_spec_witness :
    vertexai_count_tokens (.error .otherError) "hello" = 2 ∧
    openai_count_tokens ⟨false, .ok 99, .ok 99⟩ "abcdefgh" = .ok 2 ∧
    openai_count_tokens ⟨true, .error .keyError, .error .otherError⟩ "abcdefgh" =
      .ok 2 ∧
    openai_count_tokens ⟨true, .error .valueError, .ok 99⟩ "abcdefgh" =
      .error .valueError ∧
    count_total_tokens (fun _ => .error .otherError) ["abcd", "ef"] = 3 := by
  refine ⟨?_, ?_, ?_, ?_, ?_⟩
  · exact (token_counting_fallback_spec ⟨false, .ok 99, .ok 99⟩ (.error .otherError)
      "hello" (fun _ => .error .otherError) []).1 .otherError rfl
  · exact (token_counting_fallback_spec ⟨false, .ok 99, .ok 99⟩ (.error .otherError)
      "abcdefgh" (fun _ => .error .otherError) []).2.2.1 rfl
  · exact (token_counting_fallback_spec ⟨true, .error .keyError, .error .otherError⟩
      (.error .otherError) "abcdefgh" (fun _ => .error .otherError) []).2.2.2.1
      rfl .otherError rfl
  · exact (token_counting_fallback_spec ⟨true, .error .valueError, .ok 99⟩
      (.error .otherError) "abcdefgh" (fun _ => .error .otherError) []).2.2.2.2.1
      .valueError rfl rfl (by decide)
  · exact (token_counting_fallback_spec ⟨true, .error .valueError, .ok 99⟩
      (.error .otherError) "abcdefgh" (fun _ => .error .otherError)
      ["abcd", "ef"]).2.2.2.2.2 (fun t _ => ⟨.otherError, rfl⟩)

/-! ## Provider-neutral response mapping,
`VertexAIResponseMapper.map_response` and `OpenAIResponseMapper.map_response` -/

/-- Outcome of reading one attribute of an opaque backend response object:
the attribute may be absent (getattr raises AttributeError, `hasattr` is
False), its read may raise a non-AttributeError exception (`hasattr`
propagates it), or it holds a value. -/
inductive Attr (α : Type) where
  | missing
  | failing
  | val (a : α)
deriving DecidableEq, Repr

/-- One candidate as read by `_extract_finish_reason`: the effective
finish-reason string (`str(fr.name)` when present, `str(fr)` otherwise);
`val none` models a falsy (absent/None) finish reason. -/
structure VertexRawCandidate where
  finish_reason : Attr (Option String)
deriving DecidableEq, Repr

/-- Usage metadata counters as read by `_extract_usage`
(`getattr(usage, field, 0) or 0`: a missing or None counter is collapsed to
`none` since both yield 0). -/
structure VertexRawUsage where
  prompt_token_count : Option Nat
  candidates_token_count : Option Nat
  total_token_count : Option Nat
deriving DecidableEq, Repr

/-- The parts of a raw Vertex AI response read by
`VertexAIResponseMapper.map_response` (`val none` for the usage models a
present-but-None `usage_metadata`). -/
structure VertexRawResponse where
  text : Attr String
  candidates : Attr (List VertexRawCandidate)
  usage_metadata : Attr (Option VertexRawUsage)
deriving DecidableEq, Repr

/-- FINISH_REASON_MAP of vertexai/response_mapper.py. -/
def finishReasonMap : List (String × NFinishReason) :=
  [("STOP", .STOP), ("MAX_TOKENS", .MAX_TOKENS), ("SAFETY", .SAFETY),
   ("PROHIBITED_CONTENT", .CONTENT_FILTER), ("BLOCKLIST", .CONTENT_FILTER),
   ("SPII", .CONTENT_FILTER), ("RECITATION", .RECITATION)]

/-- Python dict `.get(k)` over an association list with unique keys. -/
def mapLookup (m : List (String × NFinishReason)) (k : String) :
    Option NFinishReason :=
  (m.find? (fun p => p.1 = k)).map (fun p => p.2)

/-- `VertexAIResponseMapper._extract_finish_reason`: whole body inside
`except Exception`; reaches the map lookup only with a non-empty candidate
list whose first candidate has a truthy finish reason; everything else —
including a raising read — yields OTHER, as does a name outside the map. -/
def vertex_extract_finish_reason (r : VertexRawResponse) : NFinishReason :=
  match r.candidates with
  | .val (c0 :: _) =>
    match c0.finish_reason with
    | .val (some s) => (mapLookup finishReasonMap s).getD .OTHER
    | _ => .OTHER
  | _ => .OTHER

/-- `VertexAIResponseMapper._extract_usage`: guarded by `except Exception`;
missing, None or unreadable usage metadata yields the all-zero
`TokenUsage()`. -/
def vertex_extract_usage (r : VertexRawResponse) : TokenUsage :=
  match r.usage_metadata with
  | .val (some u) =>
    { prompt_tokens := u.prompt_token_count.getD 0,
      completion_tokens := u.candidates_token_count.getD 0,
      total_tokens := u.total_token_count.getD 0 }
  | _ => {}

/-- `VertexAIResponseMapper.map_response`: the line
`text = response.text if hasattr(response, "text") else ""` is not inside
any try block, so while a missing `text` attribute falls back to the empty
string, a `text` property read failing with a non-AttributeError exception
propagates out of `hasattr` and the mapping raises. -/
def vertex_map_response (r : VertexRawResponse) : Except Unit LLMResponse :=
  match r.text with
  | .failing => .error ()
  | .missing => .ok ⟨"", vertex_extract_finish_reason r, vertex_extract_usage r⟩
  | .val t => .ok ⟨t, vertex_extract_finish_reason r, vertex_extract_usage r⟩

/-- One content entry of a Responses API output item (`type` and `text`
attributes; a missing or None `text` collapses to `none` since
`getattr(content_item, "text", "") or ""` yields the empty string). -/
structure OpenAIRawContentItem where
  type_val : Option String
  text : Option String
deriving DecidableEq, Repr

/-- One output item of a Responses API response. -/
structure OpenAIRawOutputItem where
  type_val : Option String
  content : List OpenAIRawContentItem
deriving DecidableEq, Repr

/-- Usage counters of a Responses API response (missing or None collapsed
to `none`, both yielding 0 through `getattr(..., 0) or 0`). -/
structure OpenAIRawUsage where
  input_tokens : Option Nat
  output_tokens : Option Nat
  total_tokens : Option Nat
deriving DecidableEq, Repr

/-- The parsed pydantic object handed back by `responses.parse()`, reduced
to the outcome of its `model_dump_json()` call. -/
structure ParsedObj where
  dump : Except Unit String
deriving DecidableEq, Repr

/-- The parts of a raw OpenAI Responses API response read by
`OpenAIResponseMapper.map_response`. -/
structure OpenAIRawResponse where
  output : Attr (List OpenAIRawOutputItem)
  output_text : Attr (Option String)
  status : Attr (Option String)
  usage : Attr (Option OpenAIRawUsage)
  output_parsed : Attr (Option ParsedObj)
deriving DecidableEq, Repr

/-- The nested loops of `_extract_text`: the first `output_text` content
entry of the first message item that has one. -/
def openai_first_output_text : List OpenAIRawOutputItem → Option String
  | [] => none
  | item :: rest =>
    if item.type_val = some "message" then
      match item.content.find? (fun ci => ci.type_val = some "output_text") with
      | some ci => some (ci.text.getD "")
      | none => openai_first_output_text rest
    else openai_first_output_text rest

/-- The `response.output_text` fallback of `_extract_text` (a falsy value —
absent, None, unreadable — yields the final `return ""`; an empty string is
falsy and equals the fallback result anyway). -/
def openai_output_text_fallback (r : OpenAIRawResponse) : String :=
  match r.output_text with
  | .val (some t) => t
  | _ => ""

/-- `OpenAIResponseMapper._extract_text`: whole body inside
`except Exception`, so any raising read yields the empty string. -/
def openai_extract_text (r : OpenAIRawResponse) : String :=
  match r.output with
  | .failing => ""
  | .val items =>
    match openai_first_output_text items with
    | some t => t
    | none => openai_output_text_fallback r
  | .missing => openai_output_text_fallback r

/-- _STATUS_MAP of openai/response_mapper.py. -/
def statusMap : List (String × NFinishReason) :=
  [("completed", .STOP), ("failed", .OTHER), ("incomplete", .MAX_TOKENS)]

/-- `OpenAIResponseMapper._map_status`: guarded by `except Exception`;
unknown, falsy or unreadable status yields OTHER. -/
def openai_map_status (r : OpenAIRawResponse) : NFinishReason :=
  match r.status with
  | .val (some s) => (mapLookup statusMap s).getD .OTHER
  | _ => .OTHER

/-- `OpenAIResponseMapper._extract_usage`: guarded by `except Exception`;
missing, None or unreadable usage yields `TokenUsage(0, 0, 0)`. -/
def openai_extract_usage (r : OpenAIRawResponse) : TokenUsage :=
  match r.usage with
  | .val (some u) =>
    { prompt_tokens := u.input_tokens.getD 0,
      completion_tokens := u.output_tokens.getD 0,
      total_tokens := u.total_tokens.getD 0 }
  | _ => ⟨0, 0, 0⟩

/-- `OpenAIResponseMapper._extract_parsed`: guarded by `except Exception`. -/
def openai_extract_parsed (r : OpenAIRawResponse) : Option ParsedObj :=
  match r.output_parsed with
  | .val (some p) => some p
  | _ => none

/-- `OpenAIResponseMapper.map_response`: when a parsed object is present the
text is `parsed.model_dump_json()`, a call made outside any try block, so
its failure propagates; otherwise the guarded extractors make the mapping
total (the `parsed`/`raw_response` payload fields are not modelled). -/
def openai_map_response (r : OpenAIRawResponse) (is_parsed : Bool) :
    Except Unit LLMResponse :=
  match (if is_parsed then openai_extract_parsed r else none) with
  | some p =>
    match p.dump with
    | .ok t => .ok ⟨t, openai_map_status r, openai_extract_usage r⟩
    | .error _ => .error ()
  | none => .ok ⟨openai_extract_text r, openai_map_status r, openai_extract_usage r⟩

/-- C10 counterexample: a Vertex response whose `text` property read fails
with a non-AttributeError exception makes `map_response` raise (the
`hasattr` guard re-raises it), and an OpenAI parsed response whose
`model_dump_json()` fails makes the OpenAI mapping raise — the mappings are
not total over raw response objects. -/
theorem map_response_can_raise :
    vertex_map_response ⟨.failing, .val [], .val none⟩ = .error () ∧
    openai_map_response ⟨.missing, .missing, .missing, .missing,
      .val (some ⟨.error ()⟩)⟩ true = .error () := by
  refine ⟨by decide, by decide⟩

/-- C10 (amended): the mapping never raises provided the Vertex `text`
property and an extracted parsed object's `model_dump_json()` do not raise;
all other reads are guarded: a finish reason outside the map, or any failure
while reading candidates, maps to OTHER (likewise an unknown or unreadable
OpenAI status), and missing, None or unreadable usage metadata maps to an
all-zero usage record. -/
theorem response_mapping_total_spec (rv : VertexRawResponse)
    (ro : OpenAIRawResponse) :
    (rv.text ≠ .failing → (vertex_map_response rv).isOk = true) ∧
    (∀ c0 rest s, rv.candidates = .val (c0 :: rest) →
      c0.finish_reason = .val (some s) → mapLookup finishReasonMap s = none →
      vertex_extract_finish_reason rv = .OTHER) ∧
    (rv.candidates = .failing → vertex_extract_finish_reason rv = .OTHER) ∧
    ((rv.usage_metadata = .missing ∨ rv.usage_metadata = .failing ∨
      rv.usage_metadata = .val none) → vertex_extract_usage rv = ⟨0, 0, 0⟩) ∧
    (∀ s, ro.status = .val (some s) → mapLookup statusMap s = none →
      openai_map_status ro = .OTHER) ∧
    ((ro.usage = .missing ∨ ro.usage = .failing ∨ ro.usage = .val none) →
      openai_extract_usage ro = ⟨0, 0, 0⟩) ∧
    ((openai_map_response ro false).isOk = true) ∧
    (∀ p t, ro.output_parsed = .val (some p) → p.dump = .ok t →
      openai_map_response ro true = .ok ⟨t, openai_map_status ro,
        openai_extract_usage ro⟩) := by
  refine ⟨?_, ?_, ?_, ?_, ?_, ?_, ?_, ?_⟩
  · intro ht
    rw [vertex_map_response]
    cases h : rv.text with
    | failing => exact absurd h ht
    | missing => rfl
    | val t => rfl
  · intro c0 rest s hc hf hm
    simp [vertex_extract_finish_reason, hc, hf, hm]
  · intro hc
    rw [vertex_extract_finish_reason, hc]
  · intro h
    rcases h with h | h | h <;> rw [vertex_extract_usage, h]
  · intro s hs hm
    simp [openai_map_status, hs, hm]
  · intro h
    rcases h with h | h | h <;> rw [openai_extract_usage, h]
  · rw [openai_map_response]
    rfl
  · intro p t hp hd
    rw [openai_map_response]
    simp [openai_extract_parsed, hp, hd]

/-- Witness: the guarded fallbacks at a concrete raw response: unknown
Vertex reason FINISH_REASON_UNSPECIFIED maps to OTHER, a None usage maps to
zeros, an unknown OpenAI status maps to OTHER, and an unparsed OpenAI
mapping succeeds. -/
theorem response_mapping_total_spec_witness :
    (vertex_map_response ⟨.val "hi", .val [⟨.val (some "FINISH_REASON_UNSPECIFIED")⟩],
      .val none⟩).isOk = true ∧
    vertex_extract_finish_reason ⟨.val "hi",
      .val [⟨.val (some "FINISH_REASON_UNSPECIFIED")⟩], .val none⟩ = .OTHER ∧
    vertex_extract_usage ⟨.val "hi",
      .val [⟨.val (some "FINISH_REASON_UNSPECIFIED")⟩], .val none⟩ = ⟨0, 0, 0⟩ ∧
    openai_map_status ⟨.missing, .missing, .val (some "queued"), .missing,
      .missing⟩ = .OTHER ∧
    (openai_map_response ⟨.missing, .missing, .val (some "queued"), .missing,
      .missing⟩ false).isOk = true := by
  have h := response_mapping_total_spec
    ⟨.val "hi", .val [⟨.val (some "FINISH_REASON_UNSPECIFIED")⟩], .val none⟩
    ⟨.missing, .missing, .val (some "queued"), .missing, .missing⟩
  exact ⟨h.1 (by decide), h.2.1 ⟨.val (some "FINISH_REASON_UNSPECIFIED")⟩ []
      "FINISH_REASON_UNSPECIFIED" rfl rfl (by decide),
    h.2.2.2.1 (Or.inr (Or.inr rfl)), h.2.2.2.2.1 "queued" rfl (by decide),
    h.2.2.2.2.2.2.1⟩

/-! ## Strict-schema transform,
`OpenAIProviderFactory._convert_schema_for_openai` (openai/factory.py 128-186)

JSON documents are modelled by `JVal`; a Python dict is an association list
in insertion order with unique keys (assignment replaces the value in place
when the key exists and appends otherwise; `pop`/`del` removes the entry —
modelled as removing every entry with that key, which coincides on the
unique-key lists Python can produce). -/

/-- JSON values. -/
inductive JVal where
  | str (s : String)
  | num (n : Int)
  | bool (b : Bool)
  | null
  | arr (xs : List JVal)
  | obj (fields : List (String × JVal))

/-- Test for a Python dict (`isinstance(value, dict)`). -/
def JVal.isObj : JVal → Bool
  | .obj _ => true
  | _ => false

/-- Python `d.get(k)` / `d[k]` read: the (first) entry with the key. -/
def lookupJ : List (String × JVal) → String → Option JVal
  | [], _ => none
  | (k, v) :: fs, key => if k = key then some v else lookupJ fs key

/-- Python `d.pop(k)` / `del d[k]`: drop the entry with the key (every
entry with it, coinciding on the unique-key lists Python produces). -/
def eraseKeyJ : List (String × JVal) → String → List (String × JVal)
  | [], _ => []
  | (k, v) :: fs, key =>
    if k = key then eraseKeyJ fs key else (k, v) :: eraseKeyJ fs key

/-- Python `d[k] = v`: replace the value in place when the key exists,
append at the end otherwise. -/
def setKeyJ : List (String × JVal) → String → JVal → List (String × JVal)
  | [], key, v => [(key, v)]
  | (k, w) :: fs, key, v =>
    if k = key then (k, v) :: fs else (k, w) :: setKeyJ fs key v

theorem lookupJ_setKeyJ_self (fs : List (String × JVal)) (k : String) (v : JVal) :
    lookupJ (setKeyJ fs k v) k = some v := by
  induction fs with
  | nil => simp [setKeyJ, lookupJ]
  | cons p fs ih =>
    obtain ⟨k0, w⟩ := p
    by_cases h : k0 = k
    · simp [setKeyJ, lookupJ, h]
    · simp [setKeyJ, lookupJ, h, ih]

theorem lookupJ_setKeyJ_ne (fs : List (String × JVal)) (k k' : String) (v : JVal)
    (h : k' ≠ k) : lookupJ (setKeyJ fs k v) k' = lookupJ fs k' := by
  induction fs with
  | nil => simp [setKeyJ, lookupJ, Ne.symm h]
  | cons p fs ih =>
    obtain ⟨k0, w⟩ := p
    by_cases h0 : k0 = k
    · subst h0
      simp [setKeyJ, lookupJ, Ne.symm h]
    · simp [setKeyJ, lookupJ, h0, ih]

theorem lookupJ_eraseKeyJ_ne (fs : List (String × JVal)) (k k' : String)
    (h : k' ≠ k) : lookupJ (eraseKeyJ fs k) k' = lookupJ fs k' := by
  induction fs with
  | nil => simp [eraseKeyJ]
  | cons p fs ih =>
    obtain ⟨k0, w⟩ := p
    by_cases h0 : k0 = k
    · subst h0
      simp [eraseKeyJ, lookupJ, Ne.symm h, ih]
    · simp [eraseKeyJ, lookupJ, h0, ih]

theorem lookupJ_eraseKeyJ_self (fs : List (String × JVal)) (k : String) :
    lookupJ (eraseKeyJ fs k) k = none := by
  induction fs with
  | nil => simp [eraseKeyJ, lookupJ]
  | cons p fs ih =>
    obtain ⟨k0, w⟩ := p
    by_cases h0 : k0 = k
    · simp [eraseKeyJ, h0, ih]
    · simp [eraseKeyJ, lookupJ, h0, ih]

theorem setKeyJ_eq_self (fs : List (String × JVal)) (k : String) (v : JVal)
    (h : lookupJ fs k = some v) : setKeyJ fs k v = fs := by
  induction fs with
  | nil => simp [lookupJ] at h
  | cons p fs ih =>
    obtain ⟨k0, w⟩ := p
    by_cases h0 : k0 = k
    · rw [lookupJ] at h
      rw [if_pos h0] at h
      obtain rfl : w = v := by injection h
      simp [setKeyJ, h0]
    · rw [lookupJ] at h
      rw [if_neg h0] at h
      simp [setKeyJ, h0, ih h]

theorem lookupJ_sizeOf (fs : List (String × JVal)) (k : String) (v : JVal)
    (h : lookupJ fs k = some v) : sizeOf v < sizeOf fs := by
  induction fs with
  | nil => simp [lookupJ] at h
  | cons p fs ih =>
    obtain ⟨k0, w⟩ := p
    rw [lookupJ] at h
    by_cases h0 : k0 = k
    · rw [if_pos h0] at h
      obtain rfl : w = v := by injection h
      simp
      omega
    · rw [if_neg h0] at h
      have := ih h
      simp
      omega

theorem mem_pair_sizeOf (ps : List (String × JVal)) (k : String) (v : JVal)
    (h : (k, v) ∈ ps) : sizeOf v < sizeOf ps := by
  have h1 : sizeOf (k, v) < sizeOf ps := List.sizeOf_lt_of_mem h
  simp at h1
  omega

theorem mem_sizeOf (xs : List JVal) (x : JVal) (h : x ∈ xs) :
    sizeOf x < sizeOf xs :=
  List.sizeOf_lt_of_mem h

/-- Character list of the reference-path pattern "#/$defs/". -/
def refPat : List Char := ['#', '/', '$', 'd', 'e', 'f', 's', '/']

/-- Character list of its replacement "#/definitions/". -/
def refRepl : List Char := ['#', '/', 'd', 'e', 'f', 'i', 'n', 'i', 't', 'i', 'o', 'n', 's', '/']

theorem refPat_eq_string : refPat = "#/$defs/".toList := by decide

theorem refRepl_eq_string : refRepl = "#/definitions/".toList := by decide

/-- Python `s.replace(pat, repl)` for a non-empty pattern: scan left to
right, replace each non-overlapping occurrence and continue after it. -/
def replaceSubChars (pat repl : List Char) : List Char → List Char
  | [] => []
  | c :: cs =>
    if h : pat ≠ [] ∧ startsWithChars pat (c :: cs) = true then
      repl ++ replaceSubChars pat repl (List.drop pat.length (c :: cs))
    else
      c :: replaceSubChars pat repl cs
termination_by s => s.length
decreasing_by
  · simp only [List.length_drop, List.length_cons]
    have hp : 0 < pat.length := List.length_pos.mpr h.1
    omega
  · simp

/-- The `schema["$ref"].replace("#/$defs/", "#/definitions/")` call. -/
def refPathRewrite (s : String) : String :=
  ⟨replaceSubChars refPat refRepl s.data⟩

theorem replaceSubChars_no_occurrence (pat repl : List Char) :
    ∀ t, hasSubChars pat t = false → replaceSubChars pat repl t = t := by
  intro t
  induction t with
  | nil => intro _; rw [replaceSubChars]
  | cons c cs ih =>
    intro h
    rw [hasSubChars, Bool.or_eq_false_iff] at h
    rw [replaceSubChars, dif_neg (by simp [h.1]), ih h.2]

/-- Tail of the pattern after its first character. -/
def refPatTail : List Char := ['/', '$', 'd', 'e', 'f', 's', '/']

/-- Core combinatorial fact behind idempotence of the reference-path
rewrite: the output of the replacement contains no further occurrence of
the pattern (the pattern has no self-overlap and the replacement cannot
recreate it), and the replacement does not manufacture new pattern-suffix
prefixes at the front of its output. -/
theorem refReplace_invariant :
    ∀ t, hasSubChars refPat (replaceSubChars refPat refRepl t) = false ∧
      (∀ k, 1 ≤ k → k ≤ 7 →
        startsWithChars (refPat.drop k) (replaceSubChars refPat refRepl t) = true →
        startsWithChars (refPat.drop k) t = true) := by
  suffices H : ∀ n t, List.length t ≤ n →
      hasSubChars refPat (replaceSubChars refPat refRepl t) = false ∧
      (∀ k, 1 ≤ k → k ≤ 7 →
        startsWithChars (refPat.drop k) (replaceSubChars refPat refRepl t) = true →
        startsWithChars (refPat.drop k) t = true) by
    intro t
    exact H t.length t (le_refl _)
  intro n
  induction n with
  | zero =>
    intro t ht
    have : t = [] := List.eq_nil_of_length_eq_zero (by omega)
    subst this
    rw [replaceSubChars]
    refine ⟨by decide, ?_⟩
    intro k hk1 hk7 hst
    exfalso
    interval_cases k <;> simp [refPat, startsWithChars] at hst
  | succ n ih =>
    intro t ht
    cases t with
    | nil =>
      rw [replaceSubChars]
      refine ⟨by decide, ?_⟩
      intro k hk1 hk7 hst
      exfalso
      interval_cases k <;> simp [refPat, startsWithChars] at hst
    | cons c cs =>
      rw [replaceSubChars]
      by_cases hm : startsWithChars refPat (c :: cs) = true
      · rw [dif_pos ⟨by decide, hm⟩]
        have hlen : (List.drop refPat.length (c :: cs)).length ≤ n := by
          have hp8 : refPat.length = 8 := by decide
          simp only [List.length_drop, List.length_cons, hp8]
          simp only [List.length_cons] at ht
          omega
        obtain ⟨ihA, ihQ⟩ := ih (List.drop refPat.length (c :: cs)) hlen
        constructor
        · simpa [refRepl, refPat, hasSubChars, startsWithChars,
            List.cons_append] using ihA
        · intro k hk1 hk7 hst
          exfalso
          interval_cases k <;>
            simp [refPat, refRepl, startsWithChars, List.cons_append] at hst
      · rw [dif_neg (by simp [hm])]
        have hlen : cs.length ≤ n := by
          simp only [List.length_cons] at ht
          omega
        obtain ⟨ihA, ihQ⟩ := ih cs hlen
        have hQ : ∀ k, 1 ≤ k → k ≤ 7 →
            startsWithChars (refPat.drop k)
              (c :: replaceSubChars refPat refRepl cs) = true →
            startsWithChars (refPat.drop k) (c :: cs) = true := by
          intro k hk1 hk7 hst
          have hkl : k < refPat.length := by
            have : refPat.length = 8 := by decide
            omega
          rw [List.drop_eq_getElem_cons hkl] at hst ⊢
          rw [startsWithChars, Bool.and_eq_true] at hst ⊢
          obtain ⟨hc, hrest⟩ := hst
          refine ⟨hc, ?_⟩
          by_cases hk : k = 7
          · subst hk
            have h8 : List.drop (7 + 1) refPat = [] := by decide
            rw [h8] at hrest ⊢
            rw [startsWithChars]
          · exact ihQ (k + 1) (by omega) (by omega) hrest
        constructor
        · rw [hasSubChars, ihA, Bool.or_false]
          have heq : ∀ z, startsWithChars refPat (c :: z) =
              (('#' == c) && startsWithChars refPatTail z) := by
            intro z
            have h0 : refPat = '#' :: refPatTail := by decide
            rw [h0]
            rfl
          cases hsw : startsWithChars refPat
              (c :: replaceSubChars refPat refRepl cs) with
          | false => rfl
          | true =>
            exfalso
            rw [heq, Bool.and_eq_true] at hsw
            obtain ⟨hc, hrest⟩ := hsw
            have h1 : refPat.drop 1 = refPatTail := by decide
            have htail : startsWithChars refPatTail cs = true := by
              have := ihQ 1 (by omega) (by omega) (by rw [h1]; exact hrest)
              rwa [h1] at this
            apply hm
            rw [heq, hc, htail]
            rfl
        · exact hQ

theorem refPathRewrite_idempotent (s : String) :
    refPathRewrite (refPathRewrite s) = refPathRewrite s := by
  show (⟨replaceSubChars refPat refRepl
      (replaceSubChars refPat refRepl s.data)⟩ : String) = _
  rw [replaceSubChars_no_occurrence refPat refRepl _ (refReplace_invariant s.data).1]
  rfl

/-- `OpenAIProviderFactory._convert_schema_for_openai`, on the association
list of an object node in source order, reading each inspected key from the
input node (the steps only write the keys `definitions`,
`additionalProperties` and `required`, and reduce `$ref` nodes, so every
later read of `$ref`/`type`/`properties`/`items`/`allOf`/`anyOf`/`oneOf`
sees the input value exactly as the mutating Python code does):
1. a `$defs` entry is renamed to `definitions`, its dict members converted
   (a non-dict `$defs` value would make the Python `.items()` call raise and
   is carried over unchanged here);
2. a node holding `$ref` has the `#/$defs/` path prefix of a string value
   rewritten to `#/definitions/` and every sibling key removed, and is
   returned;
3. a node of `type` `"object"` gains `additionalProperties: false` and,
   when it has a dict of `properties`, a `required` list of exactly its
   property names in order;
4.-6. dict values under `properties`, a dict under `items`, and dict
   elements of list values under `allOf`/`anyOf`/`oneOf` are converted
   recursively.  Non-object values are returned unchanged. -/
def convert_schema : JVal → JVal
  | .obj fs0 =>
    let fs1 :=
      match h1 : lookupJ fs0 "$defs" with
      | some (.obj ds) =>
        setKeyJ (eraseKeyJ fs0 "$defs") "definitions"
          (.obj (ds.attach.map (fun x =>
            (x.1.1, if x.1.2.isObj then convert_schema x.1.2 else x.1.2))))
      | some d => setKeyJ (eraseKeyJ fs0 "$defs") "definitions" d
      | none => fs0
    match lookupJ fs0 "$ref" with
    | some rv =>
      .obj [("$ref", match rv with
        | .str s => .str (refPathRewrite s)
        | _ => rv)]
    | none =>
      let fs3 :=
        match lookupJ fs0 "type" with
        | some (.str t) =>
          if t = "object" then
            let fs2 := setKeyJ fs1 "additionalProperties" (.bool false)
            match lookupJ fs0 "properties" with
            | some (.obj ps) =>
              setKeyJ fs2 "required" (.arr (ps.map (fun p => .str p.1)))
            | _ => fs2
          else fs1
        | _ => fs1
      let fs4 :=
        match h4 : lookupJ fs0 "properties" with
        | some (.obj ps) =>
          setKeyJ fs3 "properties" (.obj (ps.attach.map (fun x =>
            (x.1.1, if x.1.2.isObj then convert_schema x.1.2 else x.1.2))))
        | _ => fs3
      let fs5 :=
        match h5 : lookupJ fs0 "items" with
        | some (.obj its) => setKeyJ fs4 "items" (convert_schema (.obj its))
        | _ => fs4
      let fs6a :=
        match h6 : lookupJ fs0 "allOf" with
        | some (.arr xs) =>
          setKeyJ fs5 "allOf" (.arr (xs.attach.map (fun x =>
            if x.1.isObj then convert_schema x.1 else x.1)))
        | _ => fs5
      let fs6b :=
        match h7 : lookupJ fs0 "anyOf" with
        | some (.arr xs) =>
          setKeyJ fs6a "anyOf" (.arr (xs.attach.map (fun x =>
            if x.1.isObj then convert_schema x.1 else x.1)))
        | _ => fs6a
      let fs6c :=
        match h8 : lookupJ fs0 "oneOf" with
        | some (.arr xs) =>
          setKeyJ fs6b "oneOf" (.arr (xs.attach.map (fun x =>
            if x.1.isObj then convert_schema x.1 else x.1)))
        | _ => fs6b
      .obj fs6c
  | v => v
termination_by v => sizeOf v
decreasing_by
  all_goals simp_wf
  · rename_i fs0 hobj
    have hm : sizeOf x.1.2 < sizeOf ds :=
      mem_pair_sizeOf ds x.1.1 x.1.2 (by rw [show (x.1.1, x.1.2) = x.1 from rfl]; exact x.2)
    have hl := lookupJ_sizeOf fs0 "$defs" (.obj ds) h1
    simp at hl
    omega
  · rename_i fs0 hobj
    have hm : sizeOf x.1.2 < sizeOf ps :=
      mem_pair_sizeOf ps x.1.1 x.1.2 (by rw [show (x.1.1, x.1.2) = x.1 from rfl]; exact x.2)
    have hl := lookupJ_sizeOf fs0 "properties" (.obj ps) h4
    simp at hl
    omega
  · rename_i fs0
    have hl := lookupJ_sizeOf fs0 "items" (.obj its) h5
    simp at hl
    omega
  · rename_i fs0 hobj
    have hm : sizeOf x.1 < sizeOf xs := mem_sizeOf xs x.1 x.2
    have hl := lookupJ_sizeOf fs0 "allOf" (.arr xs) h6
    simp at hl
    omega
  · rename_i fs0 hobj
    have hm : sizeOf x.1 < sizeOf xs := mem_sizeOf xs x.1 x.2
    have hl := lookupJ_sizeOf fs0 "anyOf" (.arr xs) h7
    simp at hl
    omega
  · rename_i fs0 hobj
    have hm : sizeOf x.1 < sizeOf xs := mem_sizeOf xs x.1 x.2
    have hl := lookupJ_sizeOf fs0 "oneOf" (.arr xs) h8
    simp at hl
    omega

/-- Step 1 of the transform as a named function of the input node (equal by
unfolding to the corresponding arm of `convert_schema`). -/
def stepDefs (fs0 : List (String × JVal)) : List (String × JVal) :=
  match h1 : lookupJ fs0 "$defs" with
  | some (.obj ds) =>
    setKeyJ (eraseKeyJ fs0 "$defs") "definitions"
      (.obj (ds.attach.map (fun x =>
        (x.1.1, if x.1.2.isObj then convert_schema x.1.2 else x.1.2))))
  | some d => setKeyJ (eraseKeyJ fs0 "$defs") "definitions" d
  | none => fs0

/-- Step 3 of the transform (additionalProperties / required). -/
def stepType (fs0 fs1 : List (String × JVal)) : List (String × JVal) :=
  match lookupJ fs0 "type" with
  | some (.str t) =>
    if t = "object" then
      let fs2 := setKeyJ fs1 "additionalProperties" (.bool false)
      match lookupJ fs0 "properties" with
      | some (.obj ps) =>
        setKeyJ fs2 "required" (.arr (ps.map (fun p => .str p.1)))
      | _ => fs2
    else fs1
  | _ => fs1

/-- Step 4 of the transform (recursion into property values). -/
def stepProps (fs0 fs3 : List (String × JVal)) : List (String × JVal) :=
  match h4 : lookupJ fs0 "properties" with
  | some (.obj ps) =>
    setKeyJ fs3 "properties" (.obj (ps.attach.map (fun x =>
      (x.1.1, if x.1.2.isObj then convert_schema x.1.2 else x.1.2))))
  | _ => fs3

/-- Step 5 of the transform (recursion into a dict `items`). -/
def stepItems (fs0 fs4 : List (String × JVal)) : List (String × JVal) :=
  match h5 : lookupJ fs0 "items" with
  | some (.obj its) => setKeyJ fs4 "items" (convert_schema (.obj its))
  | _ => fs4

/-- Step 6 of the transform for one combinator key. -/
def stepComb (key : String) (fs0 fs : List (String × JVal)) :
    List (String × JVal) :=
  match h6 : lookupJ fs0 key with
  | some (.arr xs) =>
    setKeyJ fs key (.arr (xs.attach.map (fun x =>
      if x.1.isObj then convert_schema x.1 else x.1)))
  | _ => fs

/-- The bare-reference arm of the transform. -/
theorem convert_schema_ref (fs0 : List (String × JVal)) (rv : JVal)
    (h : lookupJ fs0 "$ref" = some rv) :
    convert_schema (.obj fs0) = .obj [("$ref",
      match rv with
      | .str s => .str (refPathRewrite s)
      | _ => rv)] := by
  rw [convert_schema]
  simp only [h]
  cases rv <;> rfl

/-- The no-reference arm of the transform as the composition of the step
functions. -/
theorem convert_schema_noref_eq (fs0 : List (String × JVal))
    (href : lookupJ fs0 "$ref" = none) :
    convert_schema (.obj fs0) = .obj (stepComb "oneOf" fs0 (stepComb "anyOf" fs0
      (stepComb "allOf" fs0 (stepItems fs0 (stepProps fs0
        (stepType fs0 (stepDefs fs0))))))) := by
  rw [convert_schema]
  simp only [href]
  rfl

/-- Conversion of one dict entry value (dict values are converted, other
values are carried over). -/
def convPair (p : String × JVal) : String × JVal :=
  (p.1, if p.2.isObj then convert_schema p.2 else p.2)

/-- Conversion of one list element (dict elements are converted). -/
def convElem (x : JVal) : JVal :=
  if x.isObj then convert_schema x else x

theorem attach_map_convPair (l : List (String × JVal)) :
    l.attach.map (fun x =>
      (x.1.1, if x.1.2.isObj then convert_schema x.1.2 else x.1.2)) =
      l.map convPair :=
  List.attach_map_val l convPair

theorem attach_map_convElem (l : List JVal) :
    l.attach.map (fun x => if x.1.isObj then convert_schema x.1 else x.1) =
      l.map convElem :=
  List.attach_map_val l convElem

theorem stepDefs_eq (fs0 : List (String × JVal)) :
    stepDefs fs0 =
      (match lookupJ fs0 "$defs" with
       | some (.obj ds) =>
         setKeyJ (eraseKeyJ fs0 "$defs") "definitions" (.obj (ds.map convPair))
       | some d => setKeyJ (eraseKeyJ fs0 "$defs") "definitions" d
       | none => fs0) := by
  simp only [stepDefs]
  split
  · rename_i ds heq
    rw [heq]
    simp [attach_map_convPair]
  · rename_i d hno heq
    rw [heq]
    cases d <;> first | rfl | exact absurd rfl (hno _)
  · rename_i heq
    rw [heq]

theorem stepProps_eq (fs0 fs3 : List (String × JVal)) :
    stepProps fs0 fs3 =
      (match lookupJ fs0 "properties" with
       | some (.obj ps) => setKeyJ fs3 "properties" (.obj (ps.map convPair))
       | _ => fs3) := by
  simp only [stepProps]
  split <;>
    (cases hl : lookupJ fs0 "properties" with
     | none => simp_all
     | some d =>
       cases d <;> first | rfl | (simp_all [attach_map_convPair, convPair]; try rfl))

theorem stepComb_eq (key : String) (fs0 fs : List (String × JVal)) :
    stepComb key fs0 fs =
      (match lookupJ fs0 key with
       | some (.arr xs) => setKeyJ fs key (.arr (xs.map convElem))
       | _ => fs) := by
  simp only [stepComb]
  split <;>
    (cases hl : lookupJ fs0 key with
     | none => simp_all
     | some d =>
       cases d <;> first | rfl | (simp_all [attach_map_convElem, convElem]; try rfl))

theorem stepItems_eq (fs0 fs4 : List (String × JVal)) :
    stepItems fs0 fs4 =
      (match lookupJ fs0 "items" with
       | some (.obj its) => setKeyJ fs4 "items" (convert_schema (.obj its))
       | _ => fs4) := by
  simp only [stepItems]
  split <;>
    (cases hl : lookupJ fs0 "items" with
     | none => simp_all
     | some d => cases d <;> simp_all)

theorem stepDefs_lookup_other (fs0 : List (String × JVal)) (k : String)
    (h1 : k ≠ "definitions") (h2 : k ≠ "$defs") :
    lookupJ (stepDefs fs0) k = lookupJ fs0 k := by
  rw [stepDefs_eq]
  cases hd : lookupJ fs0 "$defs" with
  | none => rfl
  | some d =>
    cases d <;>
      simp [lookupJ_setKeyJ_ne _ _ _ _ h1, lookupJ_eraseKeyJ_ne _ _ _ h2]

theorem stepDefs_lookup_defs (fs0 : List (String × JVal)) :
    lookupJ (stepDefs fs0) "$defs" = none := by
  rw [stepDefs_eq]
  cases hd : lookupJ fs0 "$defs" with
  | none => exact hd
  | some d =>
    cases d <;>
      simp [lookupJ_setKeyJ_ne _ _ _ _ (by decide : "$defs" ≠ "definitions"),
        lookupJ_eraseKeyJ_self]

theorem stepDefs_lookup_definitions (fs0 : List (String × JVal)) :
    lookupJ (stepDefs fs0) "definitions" =
      (match lookupJ fs0 "$defs" with
       | some (.obj ds) => some (.obj (ds.map convPair))
       | some d => some d
       | none => lookupJ fs0 "definitions") := by
  rw [stepDefs_eq]
  cases hd : lookupJ fs0 "$defs" with
  | none => rfl
  | some d => cases d <;> simp [lookupJ_setKeyJ_self]

theorem stepType_lookup_other (fs0 fs1 : List (String × JVal)) (k : String)
    (h1 : k ≠ "additionalProperties") (h2 : k ≠ "required") :
    lookupJ (stepType fs0 fs1) k = lookupJ fs1 k := by
  rw [stepType]
  cases ht : lookupJ fs0 "type" with
  | none => rfl
  | some d =>
    cases d <;> try rfl
    rename_i t
    try dsimp only
    by_cases hobj : t = "object"
    · rw [if_pos hobj]
      try dsimp only
      cases hp : lookupJ fs0 "properties" with
      | none => simp [lookupJ_setKeyJ_ne _ _ _ _ h1]
      | some d2 =>
        cases d2 <;>
          simp [lookupJ_setKeyJ_ne _ _ _ _ h1, lookupJ_setKeyJ_ne _ _ _ _ h2]
    · rw [if_neg hobj]

theorem stepType_not_object (fs0 fs1 : List (String × JVal))
    (ht : lookupJ fs0 "type" ≠ some (.str "object")) :
    stepType fs0 fs1 = fs1 := by
  rw [stepType]
  cases htl : lookupJ fs0 "type" with
  | none => rfl
  | some d =>
    cases d <;> try rfl
    rename_i t
    try dsimp only
    have hobj : t ≠ "object" := by
      intro hcontr
      exact ht (by rw [htl, hcontr])
    rw [if_neg hobj]

theorem stepType_lookup_addProps (fs0 fs1 : List (String × JVal))
    (ht : lookupJ fs0 "type" = some (.str "object")) :
    lookupJ (stepType fs0 fs1) "additionalProperties" = some (.bool false) := by
  rw [stepType, ht]
  try dsimp only
  rw [if_pos rfl]
  try dsimp only
  cases hp : lookupJ fs0 "properties" with
  | none => simp [lookupJ_setKeyJ_self]
  | some d =>
    cases d <;>
      simp [lookupJ_setKeyJ_self,
        lookupJ_setKeyJ_ne _ _ _ _ (by decide : "additionalProperties" ≠ "required")]

theorem stepType_lookup_required (fs0 fs1 : List (String × JVal))
    (ps : List (String × JVal))
    (ht : lookupJ fs0 "type" = some (.str "object"))
    (hp : lookupJ fs0 "properties" = some (.obj ps)) :
    lookupJ (stepType fs0 fs1) "required" =
      some (.arr (ps.map (fun p => .str p.1))) := by
  rw [stepType, ht]
  try dsimp only
  rw [if_pos rfl]
  try dsimp only
  rw [hp]
  simp [lookupJ_setKeyJ_self]

theorem stepProps_lookup_other (fs0 fs3 : List (String × JVal)) (k : String)
    (h : k ≠ "properties") :
    lookupJ (stepProps fs0 fs3) k = lookupJ fs3 k := by
  rw [stepProps_eq]
  cases hp : lookupJ fs0 "properties" with
  | none => rfl
  | some d => cases d <;> simp [lookupJ_setKeyJ_ne _ _ _ _ h]

theorem stepProps_lookup_props (fs0 fs3 : List (String × JVal)) :
    lookupJ (stepProps fs0 fs3) "properties" =
      (match lookupJ fs0 "properties" with
       | some (.obj ps) => some (.obj (ps.map convPair))
       | _ => lookupJ fs3 "properties") := by
  rw [stepProps_eq]
  cases hp : lookupJ fs0 "properties" with
  | none => rfl
  | some d => cases d <;> simp [lookupJ_setKeyJ_self]

theorem stepItems_lookup_other (fs0 fs4 : List (String × JVal)) (k : String)
    (h : k ≠ "items") :
    lookupJ (stepItems fs0 fs4) k = lookupJ fs4 k := by
  rw [stepItems_eq]
  cases hi : lookupJ fs0 "items" with
  | none => rfl
  | some d => cases d <;> simp [lookupJ_setKeyJ_ne _ _ _ _ h]

theorem stepItems_lookup_items (fs0 fs4 : List (String × JVal)) :
    lookupJ (stepItems fs0 fs4) "items" =
      (match lookupJ fs0 "items" with
       | some (.obj its) => some (convert_schema (.obj its))
       | _ => lookupJ fs4 "items") := by
  rw [stepItems_eq]
  cases hi : lookupJ fs0 "items" with
  | none => rfl
  | some d => cases d <;> simp [lookupJ_setKeyJ_self]

theorem stepComb_lookup_other (key : String) (fs0 fs : List (String × JVal))
    (k : String) (h : k ≠ key) :
    lookupJ (stepComb key fs0 fs) k = lookupJ fs k := by
  rw [stepComb_eq]
  cases hc : lookupJ fs0 key with
  | none => rfl
  | some d => cases d <;> simp [lookupJ_setKeyJ_ne _ _ _ _ h]

theorem stepComb_lookup_self (key : String) (fs0 fs : List (String × JVal)) :
    lookupJ (stepComb key fs0 fs) key =
      (match lookupJ fs0 key with
       | some (.arr xs) => some (.arr (xs.map convElem))
       | _ => lookupJ fs key) := by
  rw [stepComb_eq]
  cases hc : lookupJ fs0 key with
  | none => rfl
  | some d => cases d <;> simp [lookupJ_setKeyJ_self]

/-- The no-reference branch of the transform as one function of the node. -/
def convertPipeline (fs0 : List (String × JVal)) : List (String × JVal) :=
  stepComb "oneOf" fs0 (stepComb "anyOf" fs0 (stepComb "allOf" fs0
    (stepItems fs0 (stepProps fs0 (stepType fs0 (stepDefs fs0))))))

theorem convert_schema_noref (fs0 : List (String × JVal))
    (href : lookupJ fs0 "$ref" = none) :
    convert_schema (.obj fs0) = .obj (convertPipeline fs0) :=
  convert_schema_noref_eq fs0 href

/-- Keys the transform never writes read through to the input node. -/
theorem convertPipeline_lookup_other (fs0 : List (String × JVal)) (k : String)
    (hOne : k ≠ "oneOf") (hAny : k ≠ "anyOf") (hAll : k ≠ "allOf")
    (hIt : k ≠ "items") (hPr : k ≠ "properties")
    (hAd : k ≠ "additionalProperties") (hRq : k ≠ "required")
    (hDf : k ≠ "definitions") (hDs : k ≠ "$defs") :
    lookupJ (convertPipeline fs0) k = lookupJ fs0 k := by
  rw [convertPipeline,
    stepComb_lookup_other _ _ _ _ hOne,
    stepComb_lookup_other _ _ _ _ hAny,
    stepComb_lookup_other _ _ _ _ hAll,
    stepItems_lookup_other _ _ _ hIt,
    stepProps_lookup_other _ _ _ hPr,
    stepType_lookup_other _ _ _ hAd hRq,
    stepDefs_lookup_other _ _ hDf hDs]

theorem convertPipeline_ref (fs0 : List (String × JVal)) :
    lookupJ (convertPipeline fs0) "$ref" = lookupJ fs0 "$ref" :=
  convertPipeline_lookup_other fs0 "$ref" (by decide) (by decide) (by decide)
    (by decide) (by decide) (by decide) (by decide) (by decide) (by decide)

theorem convertPipeline_type (fs0 : List (String × JVal)) :
    lookupJ (convertPipeline fs0) "type" = lookupJ fs0 "type" :=
  convertPipeline_lookup_other fs0 "type" (by decide) (by decide) (by decide)
    (by decide) (by decide) (by decide) (by decide) (by decide) (by decide)

theorem convertPipeline_defs (fs0 : List (String × JVal)) :
    lookupJ (convertPipeline fs0) "$defs" = none := by
  rw [convertPipeline,
    stepComb_lookup_other _ _ _ _ (by decide),
    stepComb_lookup_other _ _ _ _ (by decide),
    stepComb_lookup_other _ _ _ _ (by decide),
    stepItems_lookup_other _ _ _ (by decide),
    stepProps_lookup_other _ _ _ (by decide),
    stepType_lookup_other _ _ _ (by decide) (by decide),
    stepDefs_lookup_defs]

theorem convertPipeline_definitions (fs0 : List (String × JVal)) :
    lookupJ (convertPipeline fs0) "definitions" =
      (match lookupJ fs0 "$defs" with
       | some (.obj ds) => some (.obj (ds.map convPair))
       | some d => some d
       | none => lookupJ fs0 "definitions") := by
  rw [convertPipeline,
    stepComb_lookup_other _ _ _ _ (by decide),
    stepComb_lookup_other _ _ _ _ (by decide),
    stepComb_lookup_other _ _ _ _ (by decide),
    stepItems_lookup_other _ _ _ (by decide),
    stepProps_lookup_other _ _ _ (by decide),
    stepType_lookup_other _ _ _ (by decide) (by decide),
    stepDefs_lookup_definitions]

theorem convertPipeline_addProps_object (fs0 : List (String × JVal))
    (ht : lookupJ fs0 "type" = some (.str "object")) :
    lookupJ (convertPipeline fs0) "additionalProperties" = some (.bool false) := by
  rw [convertPipeline,
    stepComb_lookup_other _ _ _ _ (by decide),
    stepComb_lookup_other _ _ _ _ (by decide),
    stepComb_lookup_other _ _ _ _ (by decide),
    stepItems_lookup_other _ _ _ (by decide),
    stepProps_lookup_other _ _ _ (by decide),
    stepType_lookup_addProps _ _ ht]

theorem convertPipeline_addProps_not (fs0 : List (String × JVal))
    (ht : lookupJ fs0 "type" ≠ some (.str "object")) :
    lookupJ (convertPipeline fs0) "additionalProperties" =
      lookupJ fs0 "additionalProperties" := by
  rw [convertPipeline,
    stepComb_lookup_other _ _ _ _ (by decide),
    stepComb_lookup_other _ _ _ _ (by decide),
    stepComb_lookup_other _ _ _ _ (by decide),
    stepItems_lookup_other _ _ _ (by decide),
    stepProps_lookup_other _ _ _ (by decide),
    stepType_not_object _ _ ht,
    stepDefs_lookup_other _ _ (by decide) (by decide)]

theorem convertPipeline_required_object (fs0 ps : List (String × JVal))
    (ht : lookupJ fs0 "type" = some (.str "object"))
    (hp : lookupJ fs0 "properties" = some (.obj ps)) :
    lookupJ (convertPipeline fs0) "required" =
      some (.arr (ps.map (fun p => .str p.1))) := by
  rw [convertPipeline,
    stepComb_lookup_other _ _ _ _ (by decide),
    stepComb_lookup_other _ _ _ _ (by decide),
    stepComb_lookup_other _ _ _ _ (by decide),
    stepItems_lookup_other _ _ _ (by decide),
    stepProps_lookup_other _ _ _ (by decide),
    stepType_lookup_required _ _ ps ht hp]

theorem convertPipeline_props (fs0 : List (String × JVal)) :
    lookupJ (convertPipeline fs0) "properties" =
      (match lookupJ fs0 "properties" with
       | some (.obj ps) => some (.obj (ps.map convPair))
       | _ => lookupJ fs0 "properties") := by
  rw [convertPipeline,
    stepComb_lookup_other _ _ _ _ (by decide),
    stepComb_lookup_other _ _ _ _ (by decide),
    stepComb_lookup_other _ _ _ _ (by decide),
    stepItems_lookup_other _ _ _ (by decide),
    stepProps_lookup_props,
    stepType_lookup_other _ _ _ (by decide) (by decide),
    stepDefs_lookup_other _ _ (by decide) (by decide)]

theorem convertPipeline_items (fs0 : List (String × JVal)) :
    lookupJ (convertPipeline fs0) "items" =
      (match lookupJ fs0 "items" with
       | some (.obj its) => some (convert_schema (.obj its))
       | _ => lookupJ fs0 "items") := by
  rw [convertPipeline,
    stepComb_lookup_other _ _ _ _ (by decide),
    stepComb_lookup_other _ _ _ _ (by decide),
    stepComb_lookup_other _ _ _ _ (by decide),
    stepItems_lookup_items,
    stepProps_lookup_other _ _ _ (by decide),
    stepType_lookup_other _ _ _ (by decide) (by decide),
    stepDefs_lookup_other _ _ (by decide) (by decide)]

theorem convertPipeline_allOf (fs0 : List (String × JVal)) :
    lookupJ (convertPipeline fs0) "allOf" =
      (match lookupJ fs0 "allOf" with
       | some (.arr xs) => some (.arr (xs.map convElem))
       | _ => lookupJ fs0 "allOf") := by
  rw [convertPipeline,
    stepComb_lookup_other _ _ _ _ (by decide),
    stepComb_lookup_other _ _ _ _ (by decide),
    stepComb_lookup_self,
    stepItems_lookup_other _ _ _ (by decide),
    stepProps_lookup_other _ _ _ (by decide),
    stepType_lookup_other _ _ _ (by decide) (by decide),
    stepDefs_lookup_other _ _ (by decide) (by decide)]

theorem convertPipeline_anyOf (fs0 : List (String × JVal)) :
    lookupJ (convertPipeline fs0) "anyOf" =
      (match lookupJ fs0 "anyOf" with
       | some (.arr xs) => some (.arr (xs.map convElem))
       | _ => lookupJ fs0 "anyOf") := by
  rw [convertPipeline,
    stepComb_lookup_other _ _ _ _ (by decide),
    stepComb_lookup_self,
    stepComb_lookup_other _ _ _ _ (by decide),
    stepItems_lookup_other _ _ _ (by decide),
    stepProps_lookup_other _ _ _ (by decide),
    stepType_lookup_other _ _ _ (by decide) (by decide),
    stepDefs_lookup_other _ _ (by decide) (by decide)]

theorem convertPipeline_oneOf (fs0 : List (String × JVal)) :
    lookupJ (convertPipeline fs0) "oneOf" =
      (match lookupJ fs0 "oneOf" with
       | some (.arr xs) => some (.arr (xs.map convElem))
       | _ => lookupJ fs0 "oneOf") := by
  rw [convertPipeline,
    stepComb_lookup_self,
    stepComb_lookup_other _ _ _ _ (by decide),
    stepComb_lookup_other _ _ _ _ (by decide),
    stepItems_lookup_other _ _ _ (by decide),
    stepProps_lookup_other _ _ _ (by decide),
    stepType_lookup_other _ _ _ (by decide) (by decide),
    stepDefs_lookup_other _ _ (by decide) (by decide)]

/-- The transform always returns a dict on a dict input. -/
theorem convert_schema_isObj (fs0 : List (String × JVal)) :
    ∃ fs1, convert_schema (.obj fs0) = .obj fs1 := by
  cases href : lookupJ fs0 "$ref" with
  | some rv => exact ⟨_, convert_schema_ref fs0 rv href⟩
  | none => exact ⟨_, convert_schema_noref fs0 href⟩

/-- Boolean comparison of a JSON `required` list against a list of property
names: the list must consist of exactly those names as strings, in order. -/
def reqMatches : List JVal → List String → Bool
  | [], [] => true
  | .str s :: xs, k :: ks => s == k && reqMatches xs ks
  | _, _ => false

theorem reqMatches_map (ks : List String) :
    reqMatches (ks.map (fun k => .str k)) ks = true := by
  induction ks with
  | nil => rfl
  | cons k ks ih => simp [reqMatches, ih]

theorem reqMatches_names (ps : List (String × JVal)) :
    reqMatches (ps.map (fun p => .str p.1)) (ps.map (fun p => p.1)) = true := by
  induction ps with
  | nil => rfl
  | cons p ps ih => simp [reqMatches, ih]

/-- The value of a bare `$ref` entry: a string value must contain no
`#/$defs/` occurrence (its path has been rewritten). -/
def refValOk : Option JVal → Bool
  | some (.str s) => !hasSubChars refPat s.data
  | _ => true

/-- A reduced reference node: exactly the one key `$ref`, with a rewritten
path. -/
def refNodeOk (fs : List (String × JVal)) : Bool :=
  (fs.map Prod.fst == ["$ref"]) && refValOk (lookupJ fs "$ref")

/-- The renamed-definitions requirement at one node: no `$defs` key left. -/
def noDefsOk (fs : List (String × JVal)) : Bool :=
  (lookupJ fs "$defs").isNone

/-- The strict-object requirement at one node: a node of `type` `"object"`
carries `additionalProperties: false` and, whenever it has a dict of
`properties`, a `required` list of exactly its property names in order. -/
def typeClauseOk (fs : List (String × JVal)) : Bool :=
  match lookupJ fs "type" with
  | some (.str t) =>
    if t = "object" then
      (match lookupJ fs "additionalProperties" with
       | some (.bool false) => true
       | _ => false) &&
      (match lookupJ fs "properties" with
       | some (.obj ps) =>
         (match lookupJ fs "required" with
          | some (.arr req) => reqMatches req (ps.map (fun p => p.1))
          | _ => false)
       | _ => true)
    else true
  | _ => true

/-- Strict-output invariant checked recursively along the paths the
transform recurses into (`properties` values, a dict `items`, dict elements
of `allOf`/`anyOf`/`oneOf` lists): a node holding `$ref` is a single bare
reference whose string value contains no `#/$defs/` occurrence; any other
node has no `$defs` key, and when it is of `type` `"object"` it carries
`additionalProperties: false` and, whenever it has a dict of `properties`,
a `required` list of exactly its property names in order. -/
def checkStrict : JVal → Bool
  | .obj fs =>
    if (lookupJ fs "$ref").isSome then refNodeOk fs
    else
      noDefsOk fs &&
      typeClauseOk fs &&
      (match h4 : lookupJ fs "properties" with
       | some (.obj ps) =>
         ps.attach.all (fun x => !x.1.2.isObj || checkStrict x.1.2)
       | _ => true) &&
      (match h5 : lookupJ fs "items" with
       | some (.obj its) => checkStrict (.obj its)
       | _ => true) &&
      (match h6 : lookupJ fs "allOf" with
       | some (.arr xs) => xs.attach.all (fun x => !x.1.isObj || checkStrict x.1)
       | _ => true) &&
      (match h7 : lookupJ fs "anyOf" with
       | some (.arr xs) => xs.attach.all (fun x => !x.1.isObj || checkStrict x.1)
       | _ => true) &&
      (match h8 : lookupJ fs "oneOf" with
       | some (.arr xs) => xs.attach.all (fun x => !x.1.isObj || checkStrict x.1)
       | _ => true)
  | _ => true
termination_by v => sizeOf v
decreasing_by
  all_goals simp_wf
  · rename_i fs hnr
    have hm : sizeOf x.1.2 < sizeOf ps :=
      mem_pair_sizeOf ps x.1.1 x.1.2 (by rw [show (x.1.1, x.1.2) = x.1 from rfl]; exact x.2)
    have hl := lookupJ_sizeOf fs "properties" (.obj ps) h4
    simp at hl
    omega
  · rename_i fs hnr
    have hl := lookupJ_sizeOf fs "items" (.obj its) h5
    simp at hl
    omega
  · rename_i fs hnr
    have hm : sizeOf x.1 < sizeOf xs := mem_sizeOf xs x.1 x.2
    have hl := lookupJ_sizeOf fs "allOf" (.arr xs) h6
    simp at hl
    omega
  · rename_i fs hnr
    have hm : sizeOf x.1 < sizeOf xs := mem_sizeOf xs x.1 x.2
    have hl := lookupJ_sizeOf fs "anyOf" (.arr xs) h7
    simp at hl
    omega
  · rename_i fs hnr
    have hm : sizeOf x.1 < sizeOf xs := mem_sizeOf xs x.1 x.2
    have hl := lookupJ_sizeOf fs "oneOf" (.arr xs) h8
    simp at hl
    omega

theorem refReplace_no_occ (t : List Char) :
    hasSubChars refPat (replaceSubChars refPat refRepl t) = false :=
  (refReplace_invariant t).1

theorem map_fst_convPair (ps : List (String × JVal)) :
    List.map ((fun p => p.1) ∘ convPair) ps = List.map (fun p => p.1) ps :=
  List.map_congr_left (fun p _ => rfl)

set_option maxRecDepth 4000 in
/-- Every output of the strict-mode transform satisfies the strict-output
invariant at every node the transform recurses into. -/
theorem checkStrict_convert : ∀ s, checkStrict (convert_schema s) = true := by
  suffices H : ∀ n s, sizeOf s ≤ n → checkStrict (convert_schema s) = true by
    intro s
    exact H (sizeOf s) s le_rfl
  intro n
  induction n with
  | zero =>
    intro s hs
    exfalso
    cases s <;> simp at hs
  | succ n ih =>
    intro s hs
    cases s with
    | str v => rw [convert_schema, checkStrict] <;> simp
    | num v => rw [convert_schema, checkStrict] <;> simp
    | bool v => rw [convert_schema, checkStrict] <;> simp
    | null => rw [convert_schema, checkStrict] <;> simp
    | arr xs => rw [convert_schema, checkStrict] <;> simp
    | obj fs0 =>
      have hn : sizeOf fs0 ≤ n := by
        simp at hs
        omega
      cases href : lookupJ fs0 "$ref" with
      | some rv =>
        rw [convert_schema_ref fs0 rv href, checkStrict]
        cases rv <;>
          simp [lookupJ, refNodeOk, refValOk, refPathRewrite, refReplace_no_occ]
      | none =>
        rw [convert_schema_noref fs0 href, checkStrict,
          convertPipeline_ref, href]
        rw [if_neg (by simp)]
        simp only [Bool.and_eq_true]
        refine ⟨⟨⟨⟨⟨⟨?_, ?_⟩, ?_⟩, ?_⟩, ?_⟩, ?_⟩, ?_⟩
        · -- no dollar-defs key is left in the output
          simp [noDefsOk, convertPipeline_defs]
        · -- additionalProperties / required clause
          simp only [typeClauseOk, convertPipeline_type]
          cases ht : lookupJ fs0 "type" with
          | none => rfl
          | some d =>
            cases d <;> try rfl
            rename_i t
            dsimp only
            by_cases hobj : t = "object"
            · subst hobj
              rw [if_pos rfl]
              rw [convertPipeline_addProps_object fs0 ht]
              simp only [convertPipeline_props, Bool.true_and]
              cases hp : lookupJ fs0 "properties" with
              | none => rfl
              | some d2 =>
                cases d2 <;> try rfl
                rename_i ps
                rw [convertPipeline_required_object fs0 ps ht hp]
                simp [map_fst_convPair, reqMatches_names]
            · rw [if_neg hobj]
        · -- recursion into properties values
          split
          · rename_i ps2 heq
            rw [convertPipeline_props fs0] at heq
            cases hp : lookupJ fs0 "properties" with
            | none =>
              rw [hp] at heq
              simp at heq
            | some d3 =>
              cases d3 with
              | obj ps =>
                rw [hp] at heq
                simp only [Option.some.injEq, JVal.obj.injEq] at heq
                subst heq
                rw [List.all_eq_true]
                intro xel hxel
                obtain ⟨p, hmem⟩ := xel
                rcases List.mem_map.mp hmem with ⟨q, hq, rfl⟩
                have hsq : sizeOf q.2 ≤ n := by
                  have h1 : sizeOf q.2 < sizeOf ps :=
                    mem_pair_sizeOf ps q.1 q.2
                      (by rw [show (q.1, q.2) = q from rfl]; exact hq)
                  have h2 := lookupJ_sizeOf fs0 "properties" (.obj ps) hp
                  simp at h2
                  omega
                cases hq2 : q.2 with
                | obj qfs =>
                  have hrec : checkStrict (convert_schema (.obj qfs)) = true :=
                    ih _ (by rw [← hq2]; exact hsq)
                  simp [convPair, hq2, hrec, JVal.isObj]
                | str a => simp [convPair, hq2, JVal.isObj]
                | num a => simp [convPair, hq2, JVal.isObj]
                | bool a => simp [convPair, hq2, JVal.isObj]
                | null => simp [convPair, hq2, JVal.isObj]
                | arr a => simp [convPair, hq2, JVal.isObj]
              | str a =>
                rw [hp] at heq
                simp at heq
              | num a =>
                rw [hp] at heq
                simp at heq
              | bool a =>
                rw [hp] at heq
                simp at heq
              | null =>
                rw [hp] at heq
                simp at heq
              | arr a =>
                rw [hp] at heq
                simp at heq
          · rfl
        · -- recursion into a dict items
          split
          · rename_i its2 heq
            rw [convertPipeline_items fs0] at heq
            cases hi : lookupJ fs0 "items" with
            | none =>
              rw [hi] at heq
              simp at heq
            | some d3 =>
              cases d3 with
              | obj its =>
                rw [hi] at heq
                simp only [Option.some.injEq] at heq
                rw [← heq]
                apply ih
                have h2 := lookupJ_sizeOf fs0 "items" (.obj its) hi
                simp at h2
                simp
                omega
              | str a =>
                rw [hi] at heq
                simp at heq
              | num a =>
                rw [hi] at heq
                simp at heq
              | bool a =>
                rw [hi] at heq
                simp at heq
              | null =>
                rw [hi] at heq
                simp at heq
              | arr a =>
                rw [hi] at heq
                simp at heq
          · rfl
        · -- recursion into allOf elements
          split
          · rename_i xs2 heq
            rw [convertPipeline_allOf fs0] at heq
            cases hc : lookupJ fs0 "allOf" with
            | none =>
              rw [hc] at heq
              simp at heq
            | some d3 =>
              cases d3 with
              | arr xs =>
                rw [hc] at heq
                simp only [Option.some.injEq, JVal.arr.injEq] at heq
                subst heq
                rw [List.all_eq_true]
                intro yel hyel
                obtain ⟨y, hmem⟩ := yel
                rcases List.mem_map.mp hmem with ⟨z, hz, rfl⟩
                have hsz : sizeOf z ≤ n := by
                  have h1 : sizeOf z < sizeOf xs := mem_sizeOf xs z hz
                  have h2 := lookupJ_sizeOf fs0 "allOf" (.arr xs) hc
                  simp at h2
                  omega
                dsimp only
                cases hzv : z with
                | obj zfs =>
                  have hrec : checkStrict (convert_schema (.obj zfs)) = true :=
                    ih _ (by rw [← hzv]; exact hsz)
                  simp [convElem, hrec, JVal.isObj]
                | str a => simp [convElem, JVal.isObj]
                | num a => simp [convElem, JVal.isObj]
                | bool a => simp [convElem, JVal.isObj]
                | null => simp [convElem, JVal.isObj]
                | arr a => simp [convElem, JVal.isObj]
              | str a =>
                rw [hc] at heq
                simp at heq
              | num a =>
                rw [hc] at heq
                simp at heq
              | bool a =>
                rw [hc] at heq
                simp at heq
              | null =>
                rw [hc] at heq
                simp at heq
              | obj a =>
                rw [hc] at heq
                simp at heq
          · rfl
        · -- recursion into anyOf elements
          split
          · rename_i xs2 heq
            rw [convertPipeline_anyOf fs0] at heq
            cases hc : lookupJ fs0 "anyOf" with
            | none =>
              rw [hc] at heq
              simp at heq
            | some d3 =>
              cases d3 with
              | arr xs =>
                rw [hc] at heq
                simp only [Option.some.injEq, JVal.arr.injEq] at heq
                subst heq
                rw [List.all_eq_true]
                intro yel hyel
                obtain ⟨y, hmem⟩ := yel
                rcases List.mem_map.mp hmem with ⟨z, hz, rfl⟩
                have hsz : sizeOf z ≤ n := by
                  have h1 : sizeOf z < sizeOf xs := mem_sizeOf xs z hz
                  have h2 := lookupJ_sizeOf fs0 "anyOf" (.arr xs) hc
                  simp at h2
                  omega
                dsimp only
                cases hzv : z with
                | obj zfs =>
                  have hrec : checkStrict (convert_schema (.obj zfs)) = true :=
                    ih _ (by rw [← hzv]; exact hsz)
                  simp [convElem, hrec, JVal.isObj]
                | str a => simp [convElem, JVal.isObj]
                | num a => simp [convElem, JVal.isObj]
                | bool a => simp [convElem, JVal.isObj]
                | null => simp [convElem, JVal.isObj]
                | arr a => simp [convElem, JVal.isObj]
              | str a =>
                rw [hc] at heq
                simp at heq
              | num a =>
                rw [hc] at heq
                simp at heq
              | bool a =>
                rw [hc] at heq
                simp at heq
              | null =>
                rw [hc] at heq
                simp at heq
              | obj a =>
                rw [hc] at heq
                simp at heq
          · rfl
        · -- recursion into oneOf elements
          split
          · rename_i xs2 heq
            rw [convertPipeline_oneOf fs0] at heq
            cases hc : lookupJ fs0 "oneOf" with
            | none =>
              rw [hc] at heq
              simp at heq
            | some d3 =>
              cases d3 with
              | arr xs =>
                rw [hc] at heq
                simp only [Option.some.injEq, JVal.arr.injEq] at heq
                subst heq
                rw [List.all_eq_true]
                intro yel hyel
                obtain ⟨y, hmem⟩ := yel
                rcases List.mem_map.mp hmem with ⟨z, hz, rfl⟩
                have hsz : sizeOf z ≤ n := by
                  have h1 : sizeOf z < sizeOf xs := mem_sizeOf xs z hz
                  have h2 := lookupJ_sizeOf fs0 "oneOf" (.arr xs) hc
                  simp at h2
                  omega
                dsimp only
                cases hzv : z with
                | obj zfs =>
                  have hrec : checkStrict (convert_schema (.obj zfs)) = true :=
                    ih _ (by rw [← hzv]; exact hsz)
                  simp [convElem, hrec, JVal.isObj]
                | str a => simp [convElem, JVal.isObj]
                | num a => simp [convElem, JVal.isObj]
                | bool a => simp [convElem, JVal.isObj]
                | null => simp [convElem, JVal.isObj]
                | arr a => simp [convElem, JVal.isObj]
              | str a =>
                rw [hc] at heq
                simp at heq
              | num a =>
                rw [hc] at heq
                simp at heq
              | bool a =>
                rw [hc] at heq
                simp at heq
              | null =>
                rw [hc] at heq
                simp at heq
              | obj a =>
                rw [hc] at heq
                simp at heq
          · rfl

theorem convPair_idem (p : String × JVal)
    (h : convert_schema (convert_schema p.2) = convert_schema p.2) :
    convPair (convPair p) = convPair p := by
  rcases p with ⟨k, v⟩
  cases v with
  | obj vfs =>
    obtain ⟨fs2, heq⟩ := convert_schema_isObj vfs
    have hObj : (convert_schema (.obj vfs)).isObj = true := by
      rw [heq]
      rfl
    simp only at h
    simp [convPair, JVal.isObj, hObj, h]
  | str a => simp [convPair, JVal.isObj]
  | num a => simp [convPair, JVal.isObj]
  | bool a => simp [convPair, JVal.isObj]
  | null => simp [convPair, JVal.isObj]
  | arr a => simp [convPair, JVal.isObj]

theorem convElem_idem (x : JVal)
    (h : convert_schema (convert_schema x) = convert_schema x) :
    convElem (convElem x) = convElem x := by
  cases x with
  | obj vfs =>
    obtain ⟨fs2, heq⟩ := convert_schema_isObj vfs
    have hObj : (convert_schema (.obj vfs)).isObj = true := by
      rw [heq]
      rfl
    simp [convElem, JVal.isObj, hObj, h]
  | str a => simp [convElem, JVal.isObj]
  | num a => simp [convElem, JVal.isObj]
  | bool a => simp [convElem, JVal.isObj]
  | null => simp [convElem, JVal.isObj]
  | arr a => simp [convElem, JVal.isObj]

/-- The strict-mode conversion is idempotent: converting an
already-converted schema changes nothing. -/
theorem convert_schema_idem :
    ∀ s, convert_schema (convert_schema s) = convert_schema s := by
  suffices H : ∀ n s, sizeOf s ≤ n →
      convert_schema (convert_schema s) = convert_schema s by
    intro s
    exact H (sizeOf s) s le_rfl
  intro n
  induction n with
  | zero =>
    intro s hs
    exfalso
    cases s <;> simp at hs
  | succ n ih =>
    intro s hs
    cases s with
    | str v =>
      have h1 : convert_schema (JVal.str v) = JVal.str v := by
        rw [convert_schema] <;> simp
      rw [h1, h1]
    | num v =>
      have h1 : convert_schema (JVal.num v) = JVal.num v := by
        rw [convert_schema] <;> simp
      rw [h1, h1]
    | bool v =>
      have h1 : convert_schema (JVal.bool v) = JVal.bool v := by
        rw [convert_schema] <;> simp
      rw [h1, h1]
    | null =>
      have h1 : convert_schema JVal.null = JVal.null := by
        rw [convert_schema] <;> simp
      rw [h1, h1]
    | arr xs =>
      have h1 : convert_schema (JVal.arr xs) = JVal.arr xs := by
        rw [convert_schema] <;> simp
      rw [h1, h1]
    | obj fs0 =>
      have hn : sizeOf fs0 ≤ n := by
        simp at hs
        omega
      cases href : lookupJ fs0 "$ref" with
      | some rv =>
        rw [convert_schema_ref fs0 rv href]
        cases rv with
        | str s0 =>
          dsimp only
          rw [convert_schema_ref [("$ref", .str (refPathRewrite s0))]
            (.str (refPathRewrite s0)) rfl]
          dsimp only
          rw [refPathRewrite_idempotent]
        | num a =>
          dsimp only
          rw [convert_schema_ref [("$ref", .num a)] (.num a) rfl]
        | bool a =>
          dsimp only
          rw [convert_schema_ref [("$ref", .bool a)] (.bool a) rfl]
        | null =>
          dsimp only
          rw [convert_schema_ref [("$ref", .null)] .null rfl]
        | arr a =>
          dsimp only
          rw [convert_schema_ref [("$ref", .arr a)] (.arr a) rfl]
        | obj a =>
          dsimp only
          rw [convert_schema_ref [("$ref", .obj a)] (.obj a) rfl]
      | none =>
        rw [convert_schema_noref fs0 href]
        have hrefT : lookupJ (convertPipeline fs0) "$ref" = none := by
          rw [convertPipeline_ref, href]
        rw [convert_schema_noref _ hrefT]
        have hDefs : stepDefs (convertPipeline fs0) = convertPipeline fs0 := by
          rw [stepDefs_eq]
          simp only [convertPipeline_defs]
        have hType : stepType (convertPipeline fs0) (convertPipeline fs0) =
            convertPipeline fs0 := by
          cases ht : lookupJ fs0 "type" with
          | none =>
            rw [stepType, convertPipeline_type, ht]
          | some d =>
            cases d with
            | str t =>
              by_cases hobj : t = "object"
              · subst hobj
                rw [stepType, convertPipeline_type, ht]
                dsimp only
                rw [if_pos rfl]
                have hap : lookupJ (convertPipeline fs0) "additionalProperties" =
                    some (.bool false) :=
                  convertPipeline_addProps_object fs0 ht
                rw [setKeyJ_eq_self _ _ _ hap]
                cases hp : lookupJ fs0 "properties" with
                | none =>
                  rw [convertPipeline_props, hp]
                | some d2 =>
                  cases d2 with
                  | obj ps =>
                    rw [convertPipeline_props, hp]
                    dsimp only
                    have hnames : (ps.map convPair).map
                        (fun p => (.str p.1 : JVal)) =
                        ps.map (fun p => .str p.1) := by
                      rw [List.map_map]
                      exact List.map_congr_left (fun p _ => rfl)
                    rw [hnames]
                    exact setKeyJ_eq_self _ _ _
                      (convertPipeline_required_object fs0 ps ht hp)
                  | str a => rw [convertPipeline_props, hp]
                  | num a => rw [convertPipeline_props, hp]
                  | bool a => rw [convertPipeline_props, hp]
                  | null => rw [convertPipeline_props, hp]
                  | arr a => rw [convertPipeline_props, hp]
              · rw [stepType, convertPipeline_type, ht]
                dsimp only
                rw [if_neg hobj]
            | num a => rw [stepType, convertPipeline_type, ht]
            | bool a => rw [stepType, convertPipeline_type, ht]
            | null => rw [stepType, convertPipeline_type, ht]
            | arr a => rw [stepType, convertPipeline_type, ht]
            | obj a => rw [stepType, convertPipeline_type, ht]
        have hProps : stepProps (convertPipeline fs0) (convertPipeline fs0) =
            convertPipeline fs0 := by
          rw [stepProps_eq]
          cases hp : lookupJ fs0 "properties" with
          | none =>
            rw [convertPipeline_props, hp]
          | some d2 =>
            cases d2 with
            | obj ps =>
              rw [convertPipeline_props, hp]
              dsimp only
              have hidem : (ps.map convPair).map convPair = ps.map convPair := by
                rw [List.map_map]
                apply List.map_congr_left
                intro q hq
                show convPair (convPair q) = convPair q
                apply convPair_idem
                apply ih
                have h1 : sizeOf q.2 < sizeOf ps :=
                  mem_pair_sizeOf ps q.1 q.2
                    (by rw [show (q.1, q.2) = q from rfl]; exact hq)
                have h2 := lookupJ_sizeOf fs0 "properties" (.obj ps) hp
                simp at h2
                omega
              rw [hidem]
              exact setKeyJ_eq_self _ _ _
                (by rw [convertPipeline_props, hp])
            | str a => rw [convertPipeline_props, hp]
            | num a => rw [convertPipeline_props, hp]
            | bool a => rw [convertPipeline_props, hp]
            | null => rw [convertPipeline_props, hp]
            | arr a => rw [convertPipeline_props, hp]
        have hItems : stepItems (convertPipeline fs0) (convertPipeline fs0) =
            convertPipeline fs0 := by
          rw [stepItems_eq]
          cases hi : lookupJ fs0 "items" with
          | none =>
            rw [convertPipeline_items, hi]
          | some d2 =>
            cases d2 with
            | obj its =>
              obtain ⟨its2, heq⟩ := convert_schema_isObj its
              rw [convertPipeline_items, hi]
              dsimp only
              rw [heq]
              dsimp only
              have hconv : convert_schema (.obj its2) = .obj its2 := by
                rw [← heq]
                have hrec : convert_schema (convert_schema (.obj its)) =
                    convert_schema (.obj its) := by
                  apply ih
                  have h2 := lookupJ_sizeOf fs0 "items" (.obj its) hi
                  simp at h2
                  simp
                  omega
                rw [hrec]
              rw [hconv]
              exact setKeyJ_eq_self _ _ _
                (by rw [convertPipeline_items, hi]; dsimp only; rw [heq])
            | str a => rw [convertPipeline_items, hi]
            | num a => rw [convertPipeline_items, hi]
            | bool a => rw [convertPipeline_items, hi]
            | null => rw [convertPipeline_items, hi]
            | arr a => rw [convertPipeline_items, hi]
        have hAll : stepComb "allOf" (convertPipeline fs0)
            (convertPipeline fs0) = convertPipeline fs0 := by
          rw [stepComb_eq]
          cases hc : lookupJ fs0 "allOf" with
          | none =>
            rw [convertPipeline_allOf, hc]
          | some d2 =>
            cases d2 with
            | arr xs =>
              rw [convertPipeline_allOf, hc]
              dsimp only
              have hidem : (xs.map convElem).map convElem = xs.map convElem := by
                rw [List.map_map]
                apply List.map_congr_left
                intro z hz
                show convElem (convElem z) = convElem z
                apply convElem_idem
                apply ih
                have h1 : sizeOf z < sizeOf xs := mem_sizeOf xs z hz
                have h2 := lookupJ_sizeOf fs0 "allOf" (.arr xs) hc
                simp at h2
                omega
              rw [hidem]
              exact setKeyJ_eq_self _ _ _
                (by rw [convertPipeline_allOf, hc])
            | str a => rw [convertPipeline_allOf, hc]
            | num a => rw [convertPipeline_allOf, hc]
            | bool a => rw [convertPipeline_allOf, hc]
            | null => rw [convertPipeline_allOf, hc]
            | obj a => rw [convertPipeline_allOf, hc]
        have hAny : stepComb "anyOf" (convertPipeline fs0)
            (convertPipeline fs0) = convertPipeline fs0 := by
          rw [stepComb_eq]
          cases hc : lookupJ fs0 "anyOf" with
          | none =>
            rw [convertPipeline_anyOf, hc]
          | some d2 =>
            cases d2 with
            | arr xs =>
              rw [convertPipeline_anyOf, hc]
              dsimp only
              have hidem : (xs.map convElem).map convElem = xs.map convElem := by
                rw [List.map_map]
                apply List.map_congr_left
                intro z hz
                show convElem (convElem z) = convElem z
                apply convElem_idem
                apply ih
                have h1 : sizeOf z < sizeOf xs := mem_sizeOf xs z hz
                have h2 := lookupJ_sizeOf fs0 "anyOf" (.arr xs) hc
                simp at h2
                omega
              rw [hidem]
              exact setKeyJ_eq_self _ _ _
                (by rw [convertPipeline_anyOf, hc])
            | str a => rw [convertPipeline_anyOf, hc]
            | num a => rw [convertPipeline_anyOf, hc]
            | bool a => rw [convertPipeline_anyOf, hc]
            | null => rw [convertPipeline_anyOf, hc]
            | obj a => rw [convertPipeline_anyOf, hc]
        have hOne : stepComb "oneOf" (convertPipeline fs0)
            (convertPipeline fs0) = convertPipeline fs0 := by
          rw [stepComb_eq]
          cases hc : lookupJ fs0 "oneOf" with
          | none =>
            rw [convertPipeline_oneOf, hc]
          | some d2 =>
            cases d2 with
            | arr xs =>
              rw [convertPipeline_oneOf, hc]
              dsimp only
              have hidem : (xs.map convElem).map convElem = xs.map convElem := by
                rw [List.map_map]
                apply List.map_congr_left
                intro z hz
                show convElem (convElem z) = convElem z
                apply convElem_idem
                apply ih
                have h1 : sizeOf z < sizeOf xs := mem_sizeOf xs z hz
                have h2 := lookupJ_sizeOf fs0 "oneOf" (.arr xs) hc
                simp at h2
                omega
              rw [hidem]
              exact setKeyJ_eq_self _ _ _
                (by rw [convertPipeline_oneOf, hc])
            | str a => rw [convertPipeline_oneOf, hc]
            | num a => rw [convertPipeline_oneOf, hc]
            | bool a => rw [convertPipeline_oneOf, hc]
            | null => rw [convertPipeline_oneOf, hc]
            | obj a => rw [convertPipeline_oneOf, hc]
        show JVal.obj (convertPipeline (convertPipeline fs0)) =
          JVal.obj (convertPipeline fs0)
        rw [convertPipeline, hDefs, hType, hProps, hItems, hAll, hAny, hOne]

/-- `OpenAIProviderFactory._build_json_schema_format`: wraps the converted
(deep-copied) model JSON schema into the OpenAI response_format document,
named after the schema's `title` entry (default `response_schema`), with
`strict: true`. -/
def build_json_schema_format (schema : List (String × JVal)) : JVal :=
  .obj [("type", .str "json_schema"),
    ("json_schema", .obj [
      ("name", match lookupJ schema "title" with
               | some v => v
               | none => .str "response_schema"),
      ("strict", .bool true),
      ("schema", convert_schema (.obj schema))])]

/-- C6 counterexample.  Two documents on which the output of
`_convert_schema_for_openai` violates the claim as stated.  (1) The
object-typed document `{"type": "object"}` (no `properties` key) gains
`additionalProperties: false` but NO `required` list at all, although the
claim asks for a required list equal to the node's (empty) list of declared
property names at every object-typed node.  (2) In the document
`{"definitions": {"D": {"type": "object"}}}` the object-typed node `D` is
reachable through the definitions container, yet the output is the
unchanged input: the code only recurses into a `$defs` container, never
into a pre-existing `definitions` container, so `D` gets neither
`additionalProperties: false` nor a `required` list. -/
theorem convert_schema_not_fully_strict :
    (convert_schema (.obj [("type", .str "object")]) =
      .obj [("type", .str "object"), ("additionalProperties", .bool false)]) ∧
    (lookupJ [("type", .str "object"), ("additionalProperties", .bool false)]
      "required" = none) ∧
    (convert_schema (.obj [("definitions",
        .obj [("D", .obj [("type", .str "object")])])]) =
      .obj [("definitions", .obj [("D", .obj [("type", .str "object")])])]) := by
  refine ⟨?_, rfl, ?_⟩
  · rw [convert_schema_noref [("type", .str "object")] rfl]
    rfl
  · rw [convert_schema_noref [("definitions",
      .obj [("D", .obj [("type", .str "object")])])] rfl]
    rfl

/-- C6 (amended).  Strict-mode schema transform: for every input document
`s`, every node of the output that the transform recurses into (values of
`properties`, a dict `items`, dict elements of `allOf`/`anyOf`/`oneOf`)
satisfies the strict-output invariant: an object-typed node carries
`additionalProperties: false` and, whenever it has a dict of `properties`,
a `required` list of exactly its property names in order (a propertyless
object-typed node gains no required list); a node holding `$ref` is
reduced to the single bare reference with its `#/$defs/` path prefix
rewritten to `#/definitions/`; no `$defs` key survives.  Moreover, on any
node the `$defs` container is renamed to `definitions` (its dict members
converted), while a pre-existing `definitions` container is left alone (it
is not recursed into, which is one of the two corrections to the claim,
the other being the absent required list on propertyless object nodes). -/
theorem strict_schema_transform_spec (s : JVal) (fs0 : List (String × JVal)) :
    checkStrict (convert_schema s) = true ∧
    lookupJ (convertPipeline fs0) "$defs" = none ∧
    lookupJ (convertPipeline fs0) "definitions" =
      (match lookupJ fs0 "$defs" with
       | some (.obj ds) => some (.obj (ds.map convPair))
       | some d => some d
       | none => lookupJ fs0 "definitions") :=
  ⟨checkStrict_convert s, convertPipeline_defs fs0, convertPipeline_definitions fs0⟩

/-- C7.  Schema adapter idempotence: building the strict response_format
twice from the same schema yields identical documents (the embedding of
`_build_json_schema_format` is a pure function of the schema), and the
strict-mode conversion is idempotent: converting an already-converted
schema returns it unchanged. -/
theorem schema_adapter_idempotent_spec (schema : List (String × JVal)) :
    build_json_schema_format schema = build_json_schema_format schema ∧
    convert_schema (convert_schema (.obj schema)) =
      convert_schema (.obj schema) :=
  ⟨rfl, convert_schema_idem _⟩
